import Mathlib

/-!
Verification development for the spin compose subsystem:
* the capability-isolation binary rewrite (`crates/compose/src/isolate.rs`), and
* the composition graph construction (`crates/compose/src/composer.rs`).

The Rust code is shallowly embedded: the wasm payload stream produced by
`wasmparser::Parser::parse_all` is a `List Payload`; the output byte buffer
built with `wasm_encoder` is a `List OutItem` (each item standing for the bytes
the code appends at that point); the composer's mutable state is threaded
explicitly through a `ComposerState`.  External collaborators
(`spin_componentize::componentize_if_necessary`, the structural
`wasmparser::Validator`, and the `wasm_compose` graph/encoder) are modelled
following the specification's description of them, as marked on each
definition.
-/

namespace SpinCompose

/-- Binary encoding kind (`wasmparser::Encoding`). -/
inductive Encoding where
  | component
  | module
deriving DecidableEq

/-- `wasmparser::PrimitiveValType` (also mirrors `wasm_encoder::PrimitiveValType`;
the two Rust enums have identical constructor lists). -/
inductive PrimitiveValType where
  | bool
  | s8
  | u8
  | s16
  | u16
  | s32
  | u32
  | s64
  | u64
  | float32
  | float64
  | char
  | string
deriving DecidableEq

/-- `wasmparser::ComponentValType` / `wasm_encoder::ComponentValType`. -/
inductive ComponentValType where
  | primitive (ty : PrimitiveValType)
  | type_ (idx : Nat)
deriving DecidableEq

/-- `wasmparser::TypeBounds` / `wasm_encoder::TypeBounds`. -/
inductive TypeBounds where
  | eq (idx : Nat)
  | subResource
deriving DecidableEq

/-- `wasmparser::ComponentTypeRef` / `wasm_encoder::ComponentTypeRef`.  The two
Rust types have identical shapes; `isolate.rs` converts between them field by
field (see `convert_wp_component_type_ref_to_we`). -/
inductive ComponentTypeRef where
  | module (idx : Nat)
  | func (idx : Nat)
  | value (ty : ComponentValType)
  | type_ (bounds : TypeBounds)
  | instance_ (idx : Nat)
  | component (idx : Nat)
deriving DecidableEq

/-- `convert_wp_primitive_val_type_to_we` from `isolate.rs`. -/
def convert_wp_primitive_val_type_to_we : PrimitiveValType → PrimitiveValType
  | .bool => .bool
  | .s8 => .s8
  | .u8 => .u8
  | .s16 => .s16
  | .u16 => .u16
  | .s32 => .s32
  | .u32 => .u32
  | .s64 => .s64
  | .u64 => .u64
  | .float32 => .float32
  | .float64 => .float64
  | .char => .char
  | .string => .string

/-- `convert_wp_component_val_type_to_we` from `isolate.rs`. -/
def convert_wp_component_val_type_to_we : ComponentValType → ComponentValType
  | .primitive ty => .primitive (convert_wp_primitive_val_type_to_we ty)
  | .type_ idx => .type_ idx

/-- `convert_wp_type_bounds_to_we` from `isolate.rs`. -/
def convert_wp_type_bounds_to_we : TypeBounds → TypeBounds
  | .eq idx => .eq idx
  | .subResource => .subResource

/-- `convert_wp_component_type_ref_to_we` from `isolate.rs`. -/
def convert_wp_component_type_ref_to_we : ComponentTypeRef → ComponentTypeRef
  | .module idx => .module idx
  | .func idx => .func idx
  | .value ty => .value (convert_wp_component_val_type_to_we ty)
  | .type_ ty => .type_ (convert_wp_type_bounds_to_we ty)
  | .instance_ idx => .instance_ idx
  | .component idx => .component idx

/-- `wasmparser::ComponentExternalKind` (used by `composer.rs` when resolving
exports). -/
inductive ComponentExternalKind where
  | module
  | func
  | value
  | type_
  | instance_
  | component
deriving DecidableEq

/-- The fixed allowlist `ISOLATE_INTERFACES` from `isolate.rs`. -/
def ISOLATE_INTERFACES : List String :=
  ["wasi:filesystem/preopens@0.2.0-rc-2023-10-18",
   "wasi:cli/environment@0.2.0-rc-2023-10-18"]

/-- One element of the payload stream produced by
`wasmparser::Parser::parse_all` over a (componentized) input binary.
`parse_all` descends into nested module/component sections, so a nested
definition appears as `moduleSectionStart`/`componentSectionStart`, followed by
the nested binary's own payloads (starting with its `version`), closed by
`end_`; the outermost binary is also closed by a final `end_`.  Sections the
rewrite does not inspect (including export sections) are carried as structured
or raw data so that the raw copy performed by `payload.as_section()` is
observable. -/
inductive Payload where
  | version (encoding : Encoding)
  | moduleSectionStart
  | componentSectionStart
  | end_
  | componentImportSection (imports : List (String × ComponentTypeRef))
  | componentExportSection (exports : List (String × ComponentExternalKind × Nat))
  | raw (id : Nat) (data : List Nat)
deriving DecidableEq

/-- One chunk of bytes appended to an output buffer by `isolate.rs`:
a header write, a single-import section written by `encode_import`, a raw
section copy (`RawSection … .append_to`), or a finished nested definition
re-embedded by the `Payload::End` arm (`parent.push(id); output.encode(parent)`). -/
inductive OutItem where
  | header (encoding : Encoding)
  | importEmit (name : String) (ty : ComponentTypeRef)
  | rawImportSection (imports : List (String × ComponentTypeRef))
  | rawExportSection (exports : List (String × ComponentExternalKind × Nat))
  | rawSection (id : Nat) (data : List Nat)
  | nested (isComponent : Bool) (content : List OutItem)

/-- `output.starts_with(&wasm_encoder::Component::HEADER)` in the
`Payload::End` arm of `isolate.rs`. -/
def startsWithComponentHeader : List OutItem → Bool
  | OutItem.header Encoding.component :: _ => true
  | _ => false

/-- The loop state of `isolate::imports`: the current output buffer, the stack
of suspended parent buffers, and the nesting depth (an `i32` in the source). -/
structure IsoState where
  output : List OutItem
  stack : List (List OutItem)
  depth : Int

/-- One iteration of the `for payload in parser.parse_all(..)` loop of
`isolate::imports`.  `Sum.inr out` models the `break` taken on `Payload::End`
with an empty stack (the loop ends with `out` as the final buffer); `Sum.inl`
continues with the updated state.  Import sections met at depth 0 are re-encoded
one import at a time by `encode_import`, renaming exactly the allowlisted
interface names to `{prefix}-{name}`; every other payload falls through to the
raw `as_section` copy. -/
def stepIso (pfx : String) (s : IsoState) : Payload → IsoState ⊕ List OutItem
  | .version e => .inl { s with output := s.output ++ [.header e] }
  | .moduleSectionStart =>
      .inl { output := [], stack := s.output :: s.stack, depth := s.depth + 1 }
  | .componentSectionStart =>
      .inl { output := [], stack := s.output :: s.stack, depth := s.depth + 1 }
  | .end_ =>
      match s.stack with
      | [] => .inr s.output
      | parent :: rest =>
          .inl { output :=
                   parent ++ [.nested (startsWithComponentHeader s.output) s.output],
                 stack := rest,
                 depth := s.depth - 1 }
  | .componentImportSection l =>
      if s.depth = 0 then
        .inl { s with output := s.output ++ l.map (fun p =>
          if p.1 ∈ ISOLATE_INTERFACES then
            OutItem.importEmit (pfx ++ "-" ++ p.1)
              (convert_wp_component_type_ref_to_we p.2)
          else
            OutItem.importEmit p.1 (convert_wp_component_type_ref_to_we p.2)) }
      else
        .inl { s with output := s.output ++ [.rawImportSection l] }
  | .componentExportSection l =>
      .inl { s with output := s.output ++ [.rawExportSection l] }
  | .raw id data =>
      .inl { s with output := s.output ++ [.rawSection id data] }

/-- The whole `for` loop of `isolate::imports`, from an arbitrary state. -/
def foldIso (pfx : String) (s : IsoState) : List Payload → IsoState ⊕ List OutItem
  | [] => .inl s
  | p :: rest =>
      match stepIso pfx s p with
      | .inl s' => foldIso pfx s' rest
      | .inr out => .inr out

/-- The rewritten buffer `isolate::imports` submits to the validator: the loop
run from the initial state (`output`/`stack` empty, `depth = 0`). -/
def runIso (pfx : String) (l : List Payload) : List OutItem :=
  match foldIso pfx { output := [], stack := [], depth := 0 } l with
  | .inl s => s.output
  | .inr out => out

/-- Isolation-stage failures: `componentize_if_necessary` failing
("failed to componentize"), or the final structural validation failing
("failed to validate output component"). -/
inductive IsoError where
  | componentizeErr
  | validateErr
deriving DecidableEq

/-- The external collaborators of the compose crate.  `disk` models
`fs::read` (a path is mapped to the parsed payload stream of the file's
bytes); `componentize` models `spin_componentize::componentize_if_necessary`
(auto-wrapping a bare module, `none` on failure); `validate` models the
structural check `wasmparser::Validator::validate_all`. -/
structure Env where
  disk : String → Option (List Payload)
  componentize : List Payload → Option (List Payload)
  validate : List OutItem → Bool

/-- `isolate::imports`: componentize the input, run the rewrite loop, then
re-validate the fully rewritten output; a validation failure is an error and
the rewritten artifact is not returned. -/
def isolateImports (env : Env) (bytes : List Payload) (pfx : String) :
    Except IsoError (List OutItem) :=
  match env.componentize bytes with
  | none => .error .componentizeErr
  | some pl =>
      let out := runIso pfx pl
      if env.validate out then .ok out else .error .validateErr

/-- A payload of a single nesting level (everything except the start/end
markers of nested definitions). -/
inductive FlatPayload where
  | version (encoding : Encoding)
  | importSection (imports : List (String × ComponentTypeRef))
  | exportSection (exports : List (String × ComponentExternalKind × Nat))
  | raw (id : Nat) (data : List Nat)

mutual
/-- A structured view of a well-nested payload stream: either a payload of the
current level, or a complete nested module/component definition. -/
inductive BinItem where
  | flat : FlatPayload → BinItem
  | nestedModule : BinList → BinItem
  | nestedComponent : BinList → BinItem

/-- A sequence of `BinItem`s. -/
inductive BinList where
  | nil : BinList
  | cons : BinItem → BinList → BinList
end

mutual
/-- The payload stream of one structured item, as `parse_all` would emit it:
a nested definition is its start marker, its own payloads, then `end_`. -/
def flattenItem : BinItem → List Payload
  | .flat (.version e) => [.version e]
  | .flat (.importSection l) => [.componentImportSection l]
  | .flat (.exportSection l) => [.componentExportSection l]
  | .flat (.raw id data) => [.raw id data]
  | .nestedModule l => Payload.moduleSectionStart :: flattenList l ++ [Payload.end_]
  | .nestedComponent l => Payload.componentSectionStart :: flattenList l ++ [Payload.end_]

/-- The payload stream of a structured sequence. -/
def flattenList : BinList → List Payload
  | .nil => []
  | .cons i rest => flattenItem i ++ flattenList rest
end

mutual
/-- The raw, rename-free re-encoding of one structured item: exactly the bytes
the `as_section` raw-copy arm and the `End` re-embedding arm of
`isolate::imports` produce.  Note this function takes no prefix: it performs no
renaming anywhere, whatever the import names are. -/
def copyItem : BinItem → List OutItem
  | .flat (.version e) => [.header e]
  | .flat (.importSection l) => [.rawImportSection l]
  | .flat (.exportSection l) => [.rawExportSection l]
  | .flat (.raw id data) => [.rawSection id data]
  | .nestedModule l =>
      [.nested (startsWithComponentHeader (copyList l)) (copyList l)]
  | .nestedComponent l =>
      [.nested (startsWithComponentHeader (copyList l)) (copyList l)]

/-- Raw re-encoding of a structured sequence. -/
def copyList : BinList → List OutItem
  | .nil => []
  | .cons i rest => copyItem i ++ copyList rest
end

/-! ### Composer model (`crates/compose/src/composer.rs`) -/

/-- The interface tables `wasm_compose::graph::Component` extracts from a
component binary.  Modelled from the spec: "a component binary (post-isolation)
plus its extracted interface tables: import-name → type reference,
export-name → (kind, type reference)" (`wasm_compose` is an external
collaborator of this crate). -/
structure ComponentDef where
  imports : List (String × ComponentTypeRef)
  exports : List (String × ComponentExternalKind × Nat)
deriving DecidableEq

/-- Table extraction of `wasm_compose::graph::Component::from_bytes`, applied
to the isolated output buffer: the depth-0 import and export sections, in
order.  Modelled from the spec (external collaborator). -/
def parseDefImports : List OutItem → List (String × ComponentTypeRef)
  | [] => []
  | OutItem.importEmit n t :: rest => (n, t) :: parseDefImports rest
  | OutItem.rawImportSection l :: rest => l ++ parseDefImports rest
  | _ :: rest => parseDefImports rest

/-- Export-table extraction of `Component::from_bytes`.  Modelled from the spec
(external collaborator). -/
def parseDefExports : List OutItem → List (String × ComponentExternalKind × Nat)
  | [] => []
  | OutItem.rawExportSection l :: rest => l ++ parseDefExports rest
  | _ :: rest => parseDefExports rest

/-- `Component::from_bytes` (external collaborator), at the level of the
interface tables the composer consults. -/
def parseDef (items : List OutItem) : ComponentDef :=
  { imports := parseDefImports items, exports := parseDefExports items }

/-- One entry of a component's manifest import map: the dependency's identity
and the optional dependency export name (`spin_app`'s resolved import). -/
structure AppImport where
  component : String
  export_ : Option String
deriving DecidableEq

/-- An `AppComponent`: its manifest identity, its source (a file location,
`none` when the manifest carries no source field), and its named imports. -/
structure AppComponent where
  id : String
  source : Option String
  imports : List (String × AppImport)
deriving DecidableEq

/-- The application manifest: the list of declared components. -/
structure App where
  components : List AppComponent
deriving DecidableEq

/-- `App::get_component`: the first declared component with the given id. -/
def App.get_component (app : App) (i : String) : Option AppComponent :=
  app.components.find? (fun c => c.id = i)

/-- A `CompositionGraph::connect` record: source instance, optional source
export index, target instance, target import index. -/
structure Conn where
  sourceInstance : Nat
  sourceExport : Option Nat
  targetInstance : Nat
  importIndex : Nat
deriving DecidableEq

/-- Ghost trace of the observable pipeline actions, used to state ordering
properties: a component registration (graph `instantiate`), a `connect` call
that reached the graph, the resource-unification pass, the encode. -/
inductive Event where
  | registered (id : String)
  | connected (source target importName : String)
  | unified
  | encoded
deriving DecidableEq

/-- The state owned by one `SpinComposer` run: the `wasm_compose` graph
(components by name, their single instances, the made connections), the
`components` and `instances` maps of `SpinComposer`, a fresh-id counter for
graph ids, and ghost logs of disk reads, isolation calls and events. -/
structure ComposerState where
  graphComponents : List (String × ComponentDef)
  components : List (String × Nat)
  instances : List (String × Nat)
  connections : List Conn
  nextId : Nat
  reads : List String
  transforms : List String
  events : List Event

/-- The empty state `SpinComposer::new` starts from. -/
def initState : ComposerState :=
  { graphComponents := [], components := [], instances := [], connections := [],
    nextId := 0, reads := [], transforms := [], events := [] }

/-- The composer's error values, one constructor per `bail!`/`context` site of
`composer.rs` (plus `fuelErr`, the artefact of bounding the Rust recursion by
fuel, and `panicErr` for `unwrap`/`assert!` panics). -/
inductive ComposeError where
  | panicErr
  | fuelErr
  | cycleErr
  | missingSourceErr
  | sourceReadErr (id path : String)
  | isolateErr (e : IsoError)
  | manifestErr (referrer dependency importName : String)
  | importResolutionErr (component importName : String)
  | exportResolutionErr (component exportName : String)
  | encodeErr
deriving DecidableEq

/-- The message text of each error, as formatted by `composer.rs` /
`isolate.rs`. -/
def errMessage : ComposeError → String
  | .panicErr => "panic"
  | .fuelErr => "recursion limit"
  | .cycleErr => "cycle"
  | .missingSourceErr => "AppComponent missing source field"
  | .sourceReadErr i p =>
      "failed to read component `" ++ i ++ "` source from disk at path '" ++ p ++ "'"
  | .isolateErr .componentizeErr => "failed to componentize"
  | .isolateErr .validateErr => "failed to validate output component"
  | .manifestErr r d n =>
      "component " ++ r ++ " dependency " ++ d ++ " for import " ++ n ++
        " is not defined in `spin.toml`"
  | .importResolutionErr c n =>
      "component `" ++ c ++ "` does not export an instance named `" ++ n ++ "`"
  | .exportResolutionErr c n =>
      "component `" ++ c ++ "` does not export an instance named `" ++ n ++ "`"
  | .encodeErr => "encoding composed component"

/-- Association lookup in a name-keyed list (the behaviour of the `IndexMap`
lookups and of `CompositionGraph::get_component_by_name`). -/
def assocFind (k : String) : List (String × α) → Option α
  | [] => none
  | (k', v) :: rest => if k' = k then some v else assocFind k rest

/-- Name lookup returning the position of the first match, as
`Component::import_by_name` / `export_by_name` return an index. -/
def findIndexedFrom (nm : String) : Nat → List (String × α) → Option (Nat × α)
  | _, [] => none
  | i, (n, v) :: rest => if n = nm then some (i, v) else findIndexedFrom nm (i + 1) rest

/-- `wasm_compose::graph::Component::import_by_name` (external collaborator):
index and type of the import with the given name. -/
def import_by_name (d : ComponentDef) (nm : String) : Option (Nat × ComponentTypeRef) :=
  findIndexedFrom nm 0 d.imports

/-- `wasm_compose::graph::Component::export_by_name` (external collaborator):
index, kind and type of the export with the given name. -/
def export_by_name (d : ComponentDef) (nm : String) :
    Option (Nat × ComponentExternalKind × Nat) :=
  findIndexedFrom nm 0 d.exports

/-- `SpinComposer::add_component`.  If a component of this name is already in
the graph, the memoized instance id is returned and nothing else happens.
Otherwise the source is read from disk, isolated with the component id as the
prefix, parsed, added to the graph and instantiated; the `assert!` panics of
the source are the `panicErr` branches.  (`parse_file_url` is modelled as the
path itself.) -/
def add_component (env : Env) (c : AppComponent) (st : ComposerState) :
    ComposerState × Except ComposeError Nat :=
  match assocFind c.id st.graphComponents with
  | some _ =>
      match assocFind c.id st.instances with
      | some i => (st, .ok i)
      | none => (st, .error .panicErr)
  | none =>
      match c.source with
      | none => (st, .error .missingSourceErr)
      | some path =>
          let st1 := { st with reads := st.reads ++ [path] }
          match env.disk path with
          | none => (st1, .error (.sourceReadErr c.id path))
          | some bytes =>
              let st2 := { st1 with transforms := st1.transforms ++ [c.id] }
              match isolateImports env bytes c.id with
              | .error e => (st2, .error (.isolateErr e))
              | .ok isolated =>
                  let defc := parseDef isolated
                  let cid := st2.nextId
                  let st3 := { st2 with
                    graphComponents := st2.graphComponents ++ [(c.id, defc)],
                    nextId := cid + 1 }
                  match assocFind c.id st3.components with
                  | some _ => (st3, .error .panicErr)
                  | none =>
                      let st4 := { st3 with components := st3.components ++ [(c.id, cid)] }
                      let iid := st4.nextId
                      let st5 := { st4 with
                        nextId := iid + 1,
                        events := st4.events ++ [Event.registered c.id] }
                      match assocFind c.id st5.instances with
                      | some _ => (st5, .error .panicErr)
                      | none =>
                          ({ st5 with instances := st5.instances ++ [(c.id, iid)] },
                           .ok iid)

/-- The `for (name, import) in c.imports()` loop body of
`SpinComposer::add_dependencies`, abstracted over the recursive call (`rec`)
and over `add_component` (`addComp`); a dependency identity absent from the
manifest fails naming the referrer, the dependency and the import, and after a
successful recursive call the dependency's id is removed from the path-local
visited set. -/
def depsLoop (app : App)
    (addComp : AppComponent → ComposerState → ComposerState × Except ComposeError Nat)
    (rec : List String → AppComponent → ComposerState →
      ComposerState × List String × Except ComposeError Unit)
    (cid : String) :
    List String → List (String × AppImport) → ComposerState →
      ComposerState × List String × Except ComposeError Unit
  | visited, [], st => (st, visited, .ok ())
  | visited, (nm, imp) :: rest, st =>
      match app.get_component imp.component with
      | none => (st, visited, .error (.manifestErr cid imp.component nm))
      | some dep =>
          match addComp dep st with
          | (st1, .error e) => (st1, visited, .error e)
          | (st1, .ok _) =>
              match rec visited dep st1 with
              | (st2, v2, .error e) => (st2, v2, .error e)
              | (st2, v2, .ok _) =>
                  depsLoop app addComp rec cid (v2.erase dep.id) rest st2

/-- `SpinComposer::add_dependencies`, with the Rust recursion bounded by fuel.
Re-entering an identity still in the path-local `visited` set is the cycle
check `if !visited.insert(c.id()) { bail!("cycle") }`. -/
def add_dependencies (env : Env) (app : App) :
    Nat → List String → AppComponent → ComposerState →
      ComposerState × List String × Except ComposeError Unit
  | 0, visited, _, st => (st, visited, .error .fuelErr)
  | Nat.succ fuel, visited, c, st =>
      if c.id ∈ visited then (st, visited, .error .cycleErr)
      else
        depsLoop app (add_component env) (add_dependencies env app fuel)
          c.id (visited ++ [c.id]) c.imports st

/-- `SpinComposer::resolve_import`: the target import name is looked up in the
target definition's import table; absence is the
"does not export an instance named" bail. -/
def resolve_import (st : ComposerState) (component importName : String) :
    Except ComposeError Nat :=
  match assocFind component st.graphComponents with
  | none => .error .panicErr
  | some d =>
      match import_by_name d importName with
      | some (i, _) => .ok i
      | none => .error (.importResolutionErr component importName)

/-- `SpinComposer::resolve_export`: the export must exist *and* have kind
`Instance` (the `Some((i, kind, _)) if kind == Instance` guard); every other
outcome takes the same bail. -/
def resolve_export (st : ComposerState) (component exportName : String) :
    Except ComposeError Nat :=
  match assocFind component st.graphComponents with
  | none => .error .panicErr
  | some d =>
      match export_by_name d exportName with
      | some (i, ComponentExternalKind.instance_, _) => .ok i
      | _ => .error (.exportResolutionErr component exportName)

/-- `CompositionGraph::connect` (external collaborator): records the
connection.  Modelled from the spec: "wires instance imports to instance
exports"; the ghost `connected` event records the call. -/
def graphConnect (st : ComposerState) (sid : Nat) (ei : Option Nat) (tid ii : Nat)
    (source target importName : String) : ComposerState :=
  { st with
    connections := st.connections ++
      [{ sourceInstance := sid, sourceExport := ei, targetInstance := tid,
         importIndex := ii }],
    events := st.events ++ [Event.connected source target importName] }

/-- `SpinComposer::connect`: the two instance-map `unwrap`s, then
`resolve_import`, then (when a source export name is given) `resolve_export`,
then the graph connect. -/
def connect (source : String) (source_export : Option String)
    (target : String) (target_import : String) (st : ComposerState) :
    ComposerState × Except ComposeError Unit :=
  match assocFind source st.instances with
  | none => (st, .error .panicErr)
  | some sid =>
      match assocFind target st.instances with
      | none => (st, .error .panicErr)
      | some tid =>
          match resolve_import st target target_import with
          | .error e => (st, .error e)
          | .ok ii =>
              match source_export with
              | some ename =>
                  match resolve_export st source ename with
                  | .error e => (st, .error e)
                  | .ok ei =>
                      (graphConnect st sid (some ei) tid ii source target target_import,
                       .ok ())
              | none =>
                  (graphConnect st sid none tid ii source target target_import,
                   .ok ())

/-- The `for (name, import) in c.imports()` loop of
`SpinComposer::build_composition`, abstracted over the recursive call: the
dependency's own subtree is built first, then the dependency is connected into
its parent; the `unwrap` on `get_component` is a panic branch. -/
def buildLoop (app : App)
    (rec : AppComponent → ComposerState → ComposerState × Except ComposeError Unit)
    (cid : String) :
    List (String × AppImport) → ComposerState →
      ComposerState × Except ComposeError Unit
  | [], st => (st, .ok ())
  | (nm, imp) :: rest, st =>
      match app.get_component imp.component with
      | none => (st, .error .panicErr)
      | some dep =>
          match rec dep st with
          | (st1, .error e) => (st1, .error e)
          | (st1, .ok _) =>
              match connect dep.id imp.export_ cid nm st1 with
              | (st2, .error e) => (st2, .error e)
              | (st2, .ok _) => buildLoop app rec cid rest st2

/-- `SpinComposer::build_composition`, with the Rust recursion bounded by
fuel. -/
def build_composition (env : Env) (app : App) :
    Nat → AppComponent → ComposerState → ComposerState × Except ComposeError Unit
  | 0, _, st => (st, .error .fuelErr)
  | Nat.succ fuel, c, st =>
      buildLoop app (build_composition env app fuel) c.id c.imports st

/-- `CompositionGraph::unify_imported_resources` (external collaborator).
Modelled from the spec: merges references to independently-imported identical
abstract resource types; it adds no component, instance or connection, so in
this model its observable effect is its position in the event trace. -/
def unifyImportedResources (st : ComposerState) : ComposerState :=
  { st with events := st.events ++ [Event.unified] }

/-- The composed artifact: every distinct definition embedded once, and the
root instance exported. -/
structure Artifact where
  definitions : List (String × ComponentDef)
  rootInstance : Nat

/-- `CompositionGraph::encode` with `define_components: true, export: root`
(external collaborator).  Modelled from the spec: "fails with EncodeError if
any instance anywhere in the graph still has an unresolved import …; otherwise
serializes every distinct ComponentDefinition used in the graph exactly once
… and exports the root instance". -/
def encodeGraph (st : ComposerState) (root : Nat) :
    ComposerState × Except ComposeError Artifact :=
  if st.graphComponents.any (fun p =>
      match assocFind p.1 st.instances with
      | none => true
      | some iid =>
          (List.range p.2.imports.length).any (fun i =>
            ! st.connections.any (fun cn =>
                cn.targetInstance == iid && cn.importIndex == i))) then
    (st, .error .encodeErr)
  else
    ({ st with events := st.events ++ [Event.encoded] },
     .ok { definitions := st.graphComponents, rootInstance := root })

/-- `SpinComposer::compose`: register the root, resolve all dependencies,
build the connections bottom-up, unify imported resources, encode. -/
def composePipeline (env : Env) (app : App) (fuel : Nat) (root : AppComponent) :
    ComposerState × Except ComposeError Artifact :=
  match add_component env root initState with
  | (st1, .error e) => (st1, .error e)
  | (st1, .ok rootInstance) =>
      match add_dependencies env app fuel [] root st1 with
      | (st2, _, .error e) => (st2, .error e)
      | (st2, _, .ok _) =>
          match build_composition env app fuel root st2 with
          | (st3, .error e) => (st3, .error e)
          | (st3, .ok _) =>
              encodeGraph (unifyImportedResources st3) rootInstance

/-! ### Derived notions used to state the claims -/

/-- Does the first character list start with the second? -/
def leadsWith : List Char → List Char → Bool
  | _, [] => true
  | [], _ :: _ => false
  | a :: as, b :: bs => a == b && leadsWith as bs

/-- Does the first character list contain the second as a contiguous run? -/
def containsSeq : List Char → List Char → Bool
  | [], sub => sub.isEmpty
  | a :: rest, sub => leadsWith (a :: rest) sub || containsSeq rest sub

/-- Substring test on strings (used to ask whether an error message mentions an
identity). -/
def strContains (s sub : String) : Bool :=
  containsSeq s.toList sub.toList

/-- How many `connect` calls with the given source, target and import name the
trace records. -/
def countConn (source target importName : String) (l : List Event) : Nat :=
  l.countP (fun e => e == Event.connected source target importName)

/-- How many registrations of the given identity the trace records. -/
def countReg (i : String) (l : List Event) : Nat :=
  l.countP (fun e => e == Event.registered i)

/-- The keys of a name-keyed list. -/
def keysOf (l : List (String × α)) : List String :=
  l.map Prod.fst

/-- Sum, over a manifest import list, of the number of import paths from each
resolvable dependency to the identity `t` (see `pathCount`). -/
def pathLoop (app : App) (pc : AppComponent → Nat) :
    List (String × AppImport) → Nat
  | [] => 0
  | (_, imp) :: rest =>
      (match app.get_component imp.component with
       | some d => pc d
       | none => 0) + pathLoop app pc rest

/-- Number of distinct import paths from the component `c` to the identity `t`
in the manifest's import graph, to recursion depth `fuel` (each path of a
well-founded graph is counted once when `fuel` exceeds the graph's depth). -/
def pathCount (app : App) : Nat → AppComponent → String → Nat
  | 0, _, _ => 0
  | Nat.succ fuel, c, t =>
      (if c.id = t then 1 else 0) +
        pathLoop app (fun d => pathCount app fuel d t) c.imports

/-- Occurrences, in a manifest import list, of an entry with the given import
name pointing at the given dependency identity. -/
def importMatchCount (importName dependency : String)
    (l : List (String × AppImport)) : Nat :=
  l.countP (fun p => p.1 == importName && p.2.component == dependency)

/-! ### Concrete manifests and environments used as evaluation inputs -/

/-- An instance-typed import entry for test binaries. -/
def impEntry (nm : String) (i : Nat) : String × ComponentTypeRef :=
  (nm, ComponentTypeRef.instance_ i)

/-- Diamond manifest with a deep shared dependency:
`A → B, C`; `B → D`; `C → D`; `D → E`. -/
def cA : AppComponent :=
  { id := "A", source := some "pA",
    imports := [("ib", { component := "B", export_ := none }),
                ("ic", { component := "C", export_ := none })] }

def cB : AppComponent :=
  { id := "B", source := some "pB",
    imports := [("id", { component := "D", export_ := none })] }

def cC : AppComponent :=
  { id := "C", source := some "pC",
    imports := [("id2", { component := "D", export_ := none })] }

def cD : AppComponent :=
  { id := "D", source := some "pD",
    imports := [("ie", { component := "E", export_ := none })] }

def cE : AppComponent :=
  { id := "E", source := some "pE", imports := [] }

def appDiamond : App :=
  { components := [cA, cB, cC, cD, cE] }

def binA : List Payload :=
  [.version .component, .componentImportSection [impEntry "ib" 0, impEntry "ic" 1], .end_]

def binB : List Payload :=
  [.version .component, .componentImportSection [impEntry "id" 0], .end_]

def binC : List Payload :=
  [.version .component, .componentImportSection [impEntry "id2" 0], .end_]

def binD : List Payload :=
  [.version .component, .componentImportSection [impEntry "ie" 0], .end_]

def binE : List Payload :=
  [.version .component, .end_]

def envDiamond : Env :=
  { disk := fun p =>
      if p = "pA" then some binA
      else if p = "pB" then some binB
      else if p = "pC" then some binC
      else if p = "pD" then some binD
      else if p = "pE" then some binE
      else none,
    componentize := some,
    validate := fun _ => true }

/-- Cyclic manifest: `X` imports from `Y` and `Y` imports from `X`. -/
def cX : AppComponent :=
  { id := "X", source := some "pX",
    imports := [("iy", { component := "Y", export_ := none })] }

def cY : AppComponent :=
  { id := "Y", source := some "pY",
    imports := [("ix", { component := "X", export_ := none })] }

def appCycle : App :=
  { components := [cX, cY] }

def envCycle : Env :=
  { disk := fun p =>
      if p = "pX" then some [.version .component, .componentImportSection [impEntry "iy" 0], .end_]
      else if p = "pY" then some [.version .component, .componentImportSection [impEntry "ix" 0], .end_]
      else none,
    componentize := some,
    validate := fun _ => true }

/-- Manifest whose only component references a dependency identity `Z` that has
no entry. -/
def cM : AppComponent :=
  { id := "M", source := some "pM",
    imports := [("iz", { component := "Z", export_ := none })] }

def appMissing : App :=
  { components := [cM] }

def envMissing : Env :=
  { disk := fun p =>
      if p = "pM" then some [.version .component, .componentImportSection [impEntry "iz" 0], .end_]
      else none,
    componentize := some,
    validate := fun _ => true }

/-- A two-component graph state for exercising `connect` failures: the target
`T` has one instance-typed import `okimp`; the source `S` exports `f` as a
function and `inst` as an instance. -/
def defT : ComponentDef :=
  { imports := [impEntry "okimp" 0], exports := [] }

def defS : ComponentDef :=
  { imports := [],
    exports := [("f", ComponentExternalKind.func, 0),
                ("inst", ComponentExternalKind.instance_, 1)] }

def stConn : ComposerState :=
  { graphComponents := [("S", defS), ("T", defT)],
    components := [("S", 0), ("T", 2)],
    instances := [("S", 1), ("T", 3)],
    connections := [], nextId := 4, reads := [], transforms := [], events := [] }

/-- Trace segments containing only registrations. -/
def RegOnly (l : List Event) : Prop :=
  ∀ e ∈ l, ∃ i, e = Event.registered i

/-- Trace segments containing only connect calls. -/
def ConnOnly (l : List Event) : Prop :=
  ∀ e ∈ l, ∃ s t n, e = Event.connected s t n

/-- All connections required by the manifest imports of the component with
identity `d` are present in the trace segment `l`. -/
def AllConnsOf (app : App) (d : String) (l : List Event) : Prop :=
  ∀ tc, app.get_component d = some tc →
    ∀ p ∈ tc.imports, Event.connected p.2.component d p.1 ∈ l

/-- Bottom-up wiring: whenever the trace records a connect call whose source is
`d`, the connections of `d`'s own manifest imports have already been recorded
earlier in the trace. -/
def ConnBefore (app : App) (L : List Event) : Prop :=
  ∀ l₁ d p n l₂, L = l₁ ++ Event.connected d p n :: l₂ → AllConnsOf app d l₁

/-- Relation between a pre-state and a post-state of the resolution stage:
graph keys grow only by manifest identities, key uniqueness of the graph and
instance tables is preserved, and the trace is extended by registrations
only. -/
def ResolveStep (app : App) (st st' : ComposerState) : Prop :=
  (∀ k, k ∈ keysOf st'.graphComponents →
    k ∈ keysOf st.graphComponents ∨ k ∈ app.components.map AppComponent.id) ∧
  ((keysOf st.graphComponents).Nodup → (keysOf st'.graphComponents).Nodup) ∧
  ((keysOf st.instances).Nodup → (keysOf st'.instances).Nodup) ∧
  (∃ l, st'.events = st.events ++ l ∧ RegOnly l)

/-- An instance-typed type reference, for concrete inputs. -/
def tyI : ComponentTypeRef := ComponentTypeRef.instance_ 0

/-- A nested body holding a single allowlisted import, for exercising the
nested-definition frame property. -/
def innerC4 : BinList :=
  BinList.cons
    (BinItem.flat (FlatPayload.importSection
      [("wasi:cli/environment@0.2.0-rc-2023-10-18", tyI)]))
    BinList.nil

/-- The full pipeline run on the diamond manifest. -/
def diamondRun : ComposerState × Except ComposeError Artifact :=
  composePipeline envDiamond appDiamond 10 cA

/-- The artifact the diamond run produces. -/
def diamondArtifact : Artifact :=
  match diamondRun.2 with
  | .ok a => a
  | .error _ => { definitions := [], rootInstance := 0 }

/-- The diamond state after root registration and dependency resolution. -/
def diamondResolved : ComposerState :=
  (add_dependencies envDiamond appDiamond 10 [] cA
    (add_component envDiamond cA initState).1).1

/-- The diamond state after the wiring pass. -/
def diamondBuilt : ComposerState :=
  (build_composition envDiamond appDiamond 10 cA diamondResolved).1

/-- First registration of the diamond root. -/
def resA : ComposerState × Except ComposeError Nat :=
  add_component envDiamond cA initState

def stA : ComposerState := resA.1

def iA : Nat :=
  match resA.2 with
  | .ok i => i
  | .error _ => 0

/-- An environment whose structural validator rejects everything. -/
def envInvalid : Env :=
  { disk := envDiamond.disk, componentize := some, validate := fun _ => false }

/-! ### Helper lemmas -/

theorem convert_prim_id (t : PrimitiveValType) :
    convert_wp_primitive_val_type_to_we t = t := by
  cases t <;> rfl

theorem convert_val_id (t : ComponentValType) :
    convert_wp_component_val_type_to_we t = t := by
  cases t <;> simp [convert_wp_component_val_type_to_we, convert_prim_id]

theorem convert_bounds_id (t : TypeBounds) :
    convert_wp_type_bounds_to_we t = t := by
  cases t <;> rfl

theorem convert_ref_id (t : ComponentTypeRef) :
    convert_wp_component_type_ref_to_we t = t := by
  cases t <;> simp [convert_wp_component_type_ref_to_we, convert_val_id, convert_bounds_id]

theorem foldIso_append (pfx : String) (s : IsoState) (l₁ l₂ : List Payload) :
    foldIso pfx s (l₁ ++ l₂) =
      (match foldIso pfx s l₁ with
       | .inl s' => foldIso pfx s' l₂
       | .inr o => .inr o) := by
  induction l₁ generalizing s with
  | nil => simp [foldIso]
  | cons p rest ih =>
      simp only [List.cons_append, foldIso]
      cases stepIso pfx s p with
      | inl s' => exact ih s'
      | inr o => rfl

mutual
theorem foldIso_copy_item (pfx : String) :
    ∀ (i : BinItem) (s : IsoState), 1 ≤ s.depth →
      foldIso pfx s (flattenItem i) = .inl { s with output := s.output ++ copyItem i }
  | .flat (.version e), s, _ => by
      simp [flattenItem, foldIso, stepIso, copyItem]
  | .flat (.importSection l), s, h => by
      have hne : ¬ s.depth = 0 := by omega
      simp [flattenItem, foldIso, stepIso, hne, copyItem]
  | .flat (.exportSection l), s, _ => by
      simp [flattenItem, foldIso, stepIso, copyItem]
  | .flat (.raw id d), s, _ => by
      simp [flattenItem, foldIso, stepIso, copyItem]
  | .nestedModule l, s, h => by
      have hl := foldIso_copy_list pfx l
        { output := [], stack := s.output :: s.stack, depth := s.depth + 1 }
        (by simp; omega)
      have hstep : foldIso pfx s (flattenItem (BinItem.nestedModule l)) =
          foldIso pfx { output := [], stack := s.output :: s.stack, depth := s.depth + 1 }
            (flattenList l ++ [Payload.end_]) := rfl
      rw [hstep, foldIso_append, hl]
      simp [foldIso, stepIso, copyItem]
  | .nestedComponent l, s, h => by
      have hl := foldIso_copy_list pfx l
        { output := [], stack := s.output :: s.stack, depth := s.depth + 1 }
        (by simp; omega)
      have hstep : foldIso pfx s (flattenItem (BinItem.nestedComponent l)) =
          foldIso pfx { output := [], stack := s.output :: s.stack, depth := s.depth + 1 }
            (flattenList l ++ [Payload.end_]) := rfl
      rw [hstep, foldIso_append, hl]
      simp [foldIso, stepIso, copyItem]

theorem foldIso_copy_list (pfx : String) :
    ∀ (l : BinList) (s : IsoState), 1 ≤ s.depth →
      foldIso pfx s (flattenList l) = .inl { s with output := s.output ++ copyList l }
  | .nil, s, _ => by
      simp [flattenList, foldIso, copyList]
  | .cons i rest, s, h => by
      have h1 : foldIso pfx s (flattenList (BinList.cons i rest)) =
          (match foldIso pfx s (flattenItem i) with
           | .inl s' => foldIso pfx s' (flattenList rest)
           | .inr o => .inr o) :=
        foldIso_append pfx s (flattenItem i) (flattenList rest)
      rw [h1, foldIso_copy_item pfx i s h]
      exact (foldIso_copy_list pfx rest { s with output := s.output ++ copyItem i }
        (by simpa using h)).trans (by simp [copyList])
end

theorem assocFind_append_none {α : Type} (k : String) {l : List (String × α)}
    (l' : List (String × α)) (h : assocFind k l = none) :
    assocFind k (l ++ l') = assocFind k l' := by
  induction l with
  | nil => rfl
  | cons p rest ih =>
      obtain ⟨k', v⟩ := p
      by_cases hp : k' = k
      · simp [assocFind, hp] at h
      · simp only [assocFind, hp, if_false, List.cons_append] at h ⊢
        exact ih h

theorem assocFind_snoc_self {α : Type} (k : String) (l : List (String × α)) (v : α)
    (h : assocFind k l = none) : assocFind k (l ++ [(k, v)]) = some v := by
  rw [assocFind_append_none k _ h]
  simp [assocFind]

theorem assocFind_eq_none_iff {α : Type} (k : String) (l : List (String × α)) :
    assocFind k l = none ↔ k ∉ keysOf l := by
  induction l with
  | nil => simp [assocFind, keysOf]
  | cons p rest ih =>
      obtain ⟨k', v⟩ := p
      by_cases hp : k' = k
      · simp [assocFind, hp, keysOf]
      · simp [assocFind, hp, keysOf, ih, Ne.symm hp]

theorem leadsWith_append (l r : List Char) : leadsWith (l ++ r) l = true := by
  induction l with
  | nil => simp [leadsWith]
  | cons a as ih => simp [leadsWith, ih]

theorem containsSeq_append_left (p l sub : List Char)
    (h : containsSeq l sub = true) : containsSeq (p ++ l) sub = true := by
  induction p with
  | nil => simpa using h
  | cons a as ih => simp [containsSeq, ih]

theorem containsSeq_self_append (sub r : List Char) :
    containsSeq (sub ++ r) sub = true := by
  cases sub with
  | nil =>
      cases r with
      | nil => rfl
      | cons a as => simp [containsSeq, leadsWith]
  | cons a as => simp [containsSeq, leadsWith, leadsWith_append]

theorem strContains_self_append (b c : String) : strContains (b ++ c) b = true := by
  simp only [strContains, String.toList, String.data_append]
  exact containsSeq_self_append b.data c.data

theorem strContains_append_right (a s sub : String)
    (h : strContains s sub = true) : strContains (a ++ s) sub = true := by
  simp only [strContains, String.toList, String.data_append] at h ⊢
  exact containsSeq_append_left a.data s.data sub.data h

theorem get_component_id (app : App) (i : String) (d : AppComponent)
    (h : app.get_component i = some d) : d.id = i := by
  have := List.find?_some h
  simpa using this

theorem get_component_fix (app : App) (i : String) (d : AppComponent)
    (h : app.get_component i = some d) : app.get_component d.id = some d := by
  rw [get_component_id app i d h]
  exact h

theorem get_component_mem (app : App) (i : String) (d : AppComponent)
    (h : app.get_component i = some d) : d ∈ app.components :=
  List.mem_of_find?_eq_some h

theorem get_component_none (app : App) (i : String)
    (h : app.get_component i = none) : i ∉ app.components.map AppComponent.id := by
  intro hmem
  obtain ⟨d, hd, hid⟩ := List.mem_map.mp hmem
  have := List.find?_eq_none.mp h d hd
  simp [hid] at this

/-- `connect` either fails leaving the state untouched, or succeeds appending
exactly one connection and one `connected` event. -/
theorem connect_spec (src : String) (se : Option String) (tgt ti : String)
    (stx : ComposerState) :
    (∃ e, connect src se tgt ti stx = (stx, .error e)) ∨
    (∃ sid ei tid ii, connect src se tgt ti stx =
      ({ stx with
          connections := stx.connections ++
            [{ sourceInstance := sid, sourceExport := ei, targetInstance := tid,
               importIndex := ii }],
          events := stx.events ++ [Event.connected src tgt ti] }, .ok ())) := by
  rcases h1 : assocFind src stx.instances with _ | sid
  · exact Or.inl ⟨.panicErr, by simp [connect, h1]⟩
  rcases h2 : assocFind tgt stx.instances with _ | tid
  · exact Or.inl ⟨.panicErr, by simp [connect, h1, h2]⟩
  rcases h3 : resolve_import stx tgt ti with e | ii
  · exact Or.inl ⟨e, by simp [connect, h1, h2, h3]⟩
  rcases se with _ | ename
  · exact Or.inr ⟨sid, none, tid, ii, by simp [connect, h1, h2, h3, graphConnect]⟩
  rcases h4 : resolve_export stx src ename with e | ei
  · exact Or.inl ⟨e, by simp [connect, h1, h2, h3, h4]⟩
  · exact Or.inr ⟨sid, some ei, tid, ii,
      by simp [connect, h1, h2, h3, h4, graphConnect]⟩

theorem connect_frame (src : String) (se : Option String) (tgt ti : String)
    (stx : ComposerState) :
    (connect src se tgt ti stx).1.graphComponents = stx.graphComponents ∧
    (connect src se tgt ti stx).1.instances = stx.instances := by
  rcases connect_spec src se tgt ti stx with ⟨e, h⟩ | ⟨sid, ei, tid, ii, h⟩ <;>
    simp [h]

theorem encodeGraph_frame (stx : ComposerState) (root : Nat) :
    (encodeGraph stx root).1.graphComponents = stx.graphComponents ∧
    (encodeGraph stx root).1.instances = stx.instances := by
  unfold encodeGraph
  split <;> simp

theorem keysOf_snoc_mem {α : Type} (l : List (String × α)) (k a : String) (v : α)
    (h : k ∈ keysOf (l ++ [(a, v)])) : k ∈ keysOf l ∨ k = a := by
  simp [keysOf] at h ⊢
  exact h

theorem keysOf_snoc_nodup {α : Type} (l : List (String × α)) (a : String) (v : α)
    (hnd : (keysOf l).Nodup) (hna : a ∉ keysOf l) :
    (keysOf (l ++ [(a, v)])).Nodup := by
  rw [keysOf, List.map_append]
  refine List.Nodup.append hnd (by simp) ?_
  intro x hx hmem
  simp at hmem
  subst hmem
  exact hna hx

theorem regOnly_nil : RegOnly [] := by
  intro e he
  simp at he

theorem regOnly_singleton (i : String) : RegOnly [Event.registered i] := by
  intro e he
  simp at he
  subst he
  exact ⟨i, rfl⟩

theorem regOnly_append {l₁ l₂ : List Event} (h₁ : RegOnly l₁) (h₂ : RegOnly l₂) :
    RegOnly (l₁ ++ l₂) := by
  intro e he
  rcases List.mem_append.mp he with h | h
  · exact h₁ e h
  · exact h₂ e h

theorem connOnly_nil : ConnOnly [] := by
  intro e he
  simp at he

theorem connOnly_append {l₁ l₂ : List Event} (h₁ : ConnOnly l₁) (h₂ : ConnOnly l₂) :
    ConnOnly (l₁ ++ l₂) := by
  intro e he
  rcases List.mem_append.mp he with h | h
  · exact h₁ e h
  · exact h₂ e h

/-- The state effects of one `add_component` call, over all its branches: the
graph gains at most the key `c.id` (and only when it was absent), key
uniqueness of the graph and instance tables is preserved, and the event trace
is extended by registrations only. -/
theorem add_component_state_effects (env : Env) (c : AppComponent)
    (st : ComposerState) :
    (∀ k, k ∈ keysOf (add_component env c st).1.graphComponents →
      k ∈ keysOf st.graphComponents ∨ k = c.id) ∧
    ((keysOf st.graphComponents).Nodup →
      (keysOf (add_component env c st).1.graphComponents).Nodup) ∧
    ((keysOf st.instances).Nodup →
      (keysOf (add_component env c st).1.instances).Nodup) ∧
    (∃ l, (add_component env c st).1.events = st.events ++ l ∧ RegOnly l) := by
  rcases h1 : assocFind c.id st.graphComponents with _ | d
  · have hnig : c.id ∉ keysOf st.graphComponents :=
      (assocFind_eq_none_iff _ _).mp h1
    rcases h3 : c.source with _ | path
    · simp only [add_component, h1, h3]
      exact ⟨fun k hk => Or.inl hk, id, id, ⟨[], by simp, regOnly_nil⟩⟩
    rcases h4 : env.disk path with _ | bytes
    · simp only [add_component, h1, h3, h4]
      exact ⟨fun k hk => Or.inl hk, id, id, ⟨[], by simp, regOnly_nil⟩⟩
    rcases h5 : isolateImports env bytes c.id with e | isolated
    · simp only [add_component, h1, h3, h4, h5]
      exact ⟨fun k hk => Or.inl hk, id, id, ⟨[], by simp, regOnly_nil⟩⟩
    rcases h6 : assocFind c.id st.components with _ | cid0
    swap
    · simp only [add_component, h1, h3, h4, h5, h6]
      exact ⟨fun k hk => keysOf_snoc_mem _ _ _ _ hk,
        fun hnd => keysOf_snoc_nodup _ _ _ hnd hnig, id,
        ⟨[], by simp, regOnly_nil⟩⟩
    rcases h7 : assocFind c.id st.instances with _ | iid0
    swap
    · simp only [add_component, h1, h3, h4, h5, h6, h7]
      exact ⟨fun k hk => keysOf_snoc_mem _ _ _ _ hk,
        fun hnd => keysOf_snoc_nodup _ _ _ hnd hnig, id,
        ⟨[Event.registered c.id], by simp, regOnly_singleton c.id⟩⟩
    · have hnii : c.id ∉ keysOf st.instances :=
        (assocFind_eq_none_iff _ _).mp h7
      simp only [add_component, h1, h3, h4, h5, h6, h7]
      exact ⟨fun k hk => keysOf_snoc_mem _ _ _ _ hk,
        fun hnd => keysOf_snoc_nodup _ _ _ hnd hnig,
        fun hnd => keysOf_snoc_nodup _ _ _ hnd hnii,
        ⟨[Event.registered c.id], by simp, regOnly_singleton c.id⟩⟩
  · rcases h2 : assocFind c.id st.instances with _ | i0
    · simp only [add_component, h1, h2]
      exact ⟨fun k hk => Or.inl hk, id, id, ⟨[], by simp, regOnly_nil⟩⟩
    · simp only [add_component, h1, h2]
      exact ⟨fun k hk => Or.inl hk, id, id, ⟨[], by simp, regOnly_nil⟩⟩

theorem resolveStep_refl (app : App) (st : ComposerState) : ResolveStep app st st :=
  ⟨fun _ hk => Or.inl hk, id, id, ⟨[], by simp, regOnly_nil⟩⟩

theorem resolveStep_trans (app : App) {s1 s2 s3 : ComposerState}
    (h12 : ResolveStep app s1 s2) (h23 : ResolveStep app s2 s3) :
    ResolveStep app s1 s3 := by
  obtain ⟨a12, b12, c12, l12, he12, hr12⟩ := h12
  obtain ⟨a23, b23, c23, l23, he23, hr23⟩ := h23
  refine ⟨fun k hk => ?_, fun h => b23 (b12 h), fun h => c23 (c12 h),
    ⟨l12 ++ l23, by rw [he23, he12, List.append_assoc], regOnly_append hr12 hr23⟩⟩
  rcases a23 k hk with h | h
  · exact a12 k h
  · exact Or.inr h

theorem add_component_resolveStep (env : Env) (app : App) (c : AppComponent)
    (st : ComposerState) (hc : c.id ∈ app.components.map AppComponent.id) :
    ResolveStep app st (add_component env c st).1 := by
  obtain ⟨h1, h2, h3, h4⟩ := add_component_state_effects env c st
  refine ⟨fun k hk => ?_, h2, h3, h4⟩
  rcases h1 k hk with h | h
  · exact Or.inl h
  · exact Or.inr (h ▸ hc)

theorem depsLoop_resolveStep (app : App)
    (addComp : AppComponent → ComposerState → ComposerState × Except ComposeError Nat)
    (rec : List String → AppComponent → ComposerState →
      ComposerState × List String × Except ComposeError Unit)
    (cid : String)
    (hA : ∀ d stx, d ∈ app.components → ResolveStep app stx (addComp d stx).1)
    (hR : ∀ v d stx, ResolveStep app stx (rec v d stx).1) :
    ∀ todo v stx, ResolveStep app stx (depsLoop app addComp rec cid v todo stx).1 := by
  intro todo
  induction todo with
  | nil => intro v stx; exact resolveStep_refl app stx
  | cons p rest ih =>
      intro v stx
      obtain ⟨nm, imp⟩ := p
      rcases hg : app.get_component imp.component with _ | dep
      · simp only [depsLoop, hg]
        exact resolveStep_refl app stx
      · simp only [depsLoop, hg]
        rcases hA1 : addComp dep stx with ⟨st1, r1⟩
        have s1 : ResolveStep app stx st1 := by
          have h := hA dep stx (get_component_mem app _ dep hg)
          rwa [hA1] at h
        cases r1 with
        | error e => exact s1
        | ok val =>
            dsimp only
            rcases hR1 : rec v dep st1 with ⟨st2, v2, r2⟩
            have s2 : ResolveStep app st1 st2 := by
              have h := hR v dep st1
              rwa [hR1] at h
            cases r2 with
            | error e => exact resolveStep_trans app s1 s2
            | ok u =>
                dsimp only
                exact resolveStep_trans app s1
                  (resolveStep_trans app s2 (ih (v2.erase dep.id) st2))

theorem add_dependencies_resolveStep (env : Env) (app : App) :
    ∀ (fuel : Nat) (v : List String) (c : AppComponent) (stx : ComposerState),
      ResolveStep app stx (add_dependencies env app fuel v c stx).1 := by
  intro fuel
  induction fuel with
  | zero => intro v c stx; exact resolveStep_refl app stx
  | succ fuel ih =>
      intro v c stx
      by_cases hmem : c.id ∈ v
      · simp only [add_dependencies, hmem, if_true]
        exact resolveStep_refl app stx
      · simp only [add_dependencies, hmem, if_false]
        exact depsLoop_resolveStep app _ _ _
          (fun d stx' hd =>
            add_component_resolveStep env app d stx' (List.mem_map.mpr ⟨d, hd, rfl⟩))
          (fun v' d stx' => ih v' d stx') _ _ _

/-- The wiring loop only appends connect events and never touches the
component or instance tables (whatever its outcome), provided its recursive
call does the same. -/
theorem buildLoop_connOnly_frame (app : App)
    (rec : AppComponent → ComposerState → ComposerState × Except ComposeError Unit)
    (cid : String)
    (hrec : ∀ d stx,
      (∃ l, (rec d stx).1.events = stx.events ++ l ∧ ConnOnly l) ∧
      (rec d stx).1.graphComponents = stx.graphComponents ∧
      (rec d stx).1.instances = stx.instances) :
    ∀ todo stx,
      (∃ l, (buildLoop app rec cid todo stx).1.events = stx.events ++ l ∧ ConnOnly l) ∧
      (buildLoop app rec cid todo stx).1.graphComponents = stx.graphComponents ∧
      (buildLoop app rec cid todo stx).1.instances = stx.instances := by
  intro todo
  induction todo with
  | nil => intro stx; exact ⟨⟨[], by simp [buildLoop], connOnly_nil⟩, rfl, rfl⟩
  | cons p rest ih =>
      intro stx
      obtain ⟨nm, imp⟩ := p
      rcases hg : app.get_component imp.component with _ | dep
      · simp only [buildLoop, hg]
        refine ⟨⟨[], by simp, connOnly_nil⟩, ?_, ?_⟩ <;> trivial
      · simp only [buildLoop, hg]
        rcases hb : rec dep stx with ⟨st1, rb⟩
        have hb' := hrec dep stx
        rw [hb] at hb'
        obtain ⟨⟨l1, he1, hc1⟩, hg1, hi1⟩ := hb'
        cases rb with
        | error e => exact ⟨⟨l1, he1, hc1⟩, hg1, hi1⟩
        | ok u =>
            cases u
            dsimp only
            rcases connect_spec dep.id imp.export_ cid nm st1 with
              ⟨e, hc⟩ | ⟨sid, ei, tid, ii, hc⟩
            · rw [hc]
              exact ⟨⟨l1, he1, hc1⟩, hg1, hi1⟩
            · rw [hc]
              dsimp only
              obtain ⟨⟨l2, he2, hc2⟩, hg2, hi2⟩ := ih
                { st1 with
                  connections := st1.connections ++
                    [{ sourceInstance := sid, sourceExport := ei, targetInstance := tid,
                       importIndex := ii }],
                  events := st1.events ++ [Event.connected dep.id cid nm] }
              refine ⟨⟨l1 ++ [Event.connected dep.id cid nm] ++ l2, ?_, ?_⟩, ?_, ?_⟩
              · rw [he2]
                dsimp only
                rw [he1]
                simp [List.append_assoc]
              · refine connOnly_append (connOnly_append hc1 ?_) hc2
                intro e he
                simp at he
                subst he
                exact ⟨dep.id, cid, nm, rfl⟩
              · rw [hg2]
                exact hg1
              · rw [hi2]
                exact hi1

/-- `build_composition` only appends connect events and never touches the
component or instance tables. -/
theorem build_connOnly_frame (env : Env) (app : App) :
    ∀ (fuel : Nat) (c : AppComponent) (stx : ComposerState),
      (∃ l, (build_composition env app fuel c stx).1.events = stx.events ++ l ∧
        ConnOnly l) ∧
      (build_composition env app fuel c stx).1.graphComponents = stx.graphComponents ∧
      (build_composition env app fuel c stx).1.instances = stx.instances := by
  intro fuel
  induction fuel with
  | zero =>
      intro c stx
      exact ⟨⟨[], by simp [build_composition], connOnly_nil⟩, rfl, rfl⟩
  | succ fuel ih =>
      intro c stx
      exact buildLoop_connOnly_frame app _ c.id (fun d stx' => ih d stx') c.imports stx

/-! ### Claim theorems -/

/-- C1: on a depth-0 import section of the (componentized) input, the isolation
rewrite with tag `pfx` emits each import with its name replaced by
`{pfx}-{name}` exactly when the name is in the two-element allowlist
`ISOLATE_INTERFACES` (filesystem preopens and cli environment at version
0.2.0-rc-2023-10-18), and with its declared type reference unchanged; every
non-allowlisted import keeps its original name, and the rewritten name is never
equal to the original. -/
theorem c1_depth0_import_rewrite (pfx : String) (s : IsoState)
    (l : List (String × ComponentTypeRef)) (h : s.depth = 0) :
    (stepIso pfx s (Payload.componentImportSection l) =
      Sum.inl { s with output := s.output ++ l.map (fun p =>
        OutItem.importEmit
          (if p.1 ∈ ISOLATE_INTERFACES then pfx ++ "-" ++ p.1 else p.1) p.2) }) ∧
    (∀ nm : String, nm ∈ ISOLATE_INTERFACES ↔
      (nm = "wasi:filesystem/preopens@0.2.0-rc-2023-10-18" ∨
       nm = "wasi:cli/environment@0.2.0-rc-2023-10-18")) ∧
    (∀ nm : String, ¬ pfx ++ "-" ++ nm = nm) := by
  refine ⟨?_, ?_, ?_⟩
  · have hf : (fun p : String × ComponentTypeRef =>
        if p.1 ∈ ISOLATE_INTERFACES then
          OutItem.importEmit (pfx ++ "-" ++ p.1) (convert_wp_component_type_ref_to_we p.2)
        else
          OutItem.importEmit p.1 (convert_wp_component_type_ref_to_we p.2)) =
        (fun p : String × ComponentTypeRef =>
          OutItem.importEmit
            (if p.1 ∈ ISOLATE_INTERFACES then pfx ++ "-" ++ p.1 else p.1) p.2) := by
      funext p
      rw [convert_ref_id]
      split <;> rfl
    simp [stepIso, h, hf]
  · intro nm
    simp [ISOLATE_INTERFACES]
  · intro nm heq
    have hlen := congrArg String.length heq
    rw [String.length_append, String.length_append] at hlen
    have h1 : ("-" : String).length = 1 := rfl
    omega

/-- Witness for C1 at a concrete depth-0 state and a two-import section holding
one allowlisted and one other name. -/
theorem c1_witness :
    stepIso "foo" { output := [], stack := [], depth := 0 }
      (Payload.componentImportSection
        [("wasi:cli/environment@0.2.0-rc-2023-10-18", tyI), ("other", tyI)]) =
      Sum.inl (IsoState.mk
        [OutItem.importEmit "foo-wasi:cli/environment@0.2.0-rc-2023-10-18" tyI,
         OutItem.importEmit "other" tyI] [] 0) := by
  rw [(c1_depth0_import_rewrite "foo" { output := [], stack := [], depth := 0 }
    [("wasi:cli/environment@0.2.0-rc-2023-10-18", tyI), ("other", tyI)] rfl).1]
  rfl

/-- C4: a nested module or component definition met at any nonnegative depth is
reproduced in the output as a single re-embedded section whose content is the
raw (`copyList`) re-encoding of the nested payloads — a re-encoding that takes
no prefix and copies every inner import section verbatim, allowlisted names
included — so the isolation pass never rewrites imports inside nested
definitions. -/
theorem c4_nested_untouched (pfx : String) (s : IsoState) (inner : BinList)
    (h : 0 ≤ s.depth) :
    (foldIso pfx s (Payload.moduleSectionStart :: (flattenList inner ++ [Payload.end_])) =
      Sum.inl { s with output := s.output ++
        [OutItem.nested (startsWithComponentHeader (copyList inner)) (copyList inner)] }) ∧
    (foldIso pfx s (Payload.componentSectionStart :: (flattenList inner ++ [Payload.end_])) =
      Sum.inl { s with output := s.output ++
        [OutItem.nested (startsWithComponentHeader (copyList inner)) (copyList inner)] }) ∧
    (∀ l, copyItem (BinItem.flat (FlatPayload.importSection l)) =
      [OutItem.rawImportSection l]) := by
  have hl := foldIso_copy_list pfx inner
    { output := [], stack := s.output :: s.stack, depth := s.depth + 1 }
    (by simp; omega)
  refine ⟨?_, ?_, fun l => rfl⟩
  · have hstep : foldIso pfx s
        (Payload.moduleSectionStart :: (flattenList inner ++ [Payload.end_])) =
        foldIso pfx { output := [], stack := s.output :: s.stack, depth := s.depth + 1 }
          (flattenList inner ++ [Payload.end_]) := rfl
    rw [hstep, foldIso_append, hl]
    simp [foldIso, stepIso]
  · have hstep : foldIso pfx s
        (Payload.componentSectionStart :: (flattenList inner ++ [Payload.end_])) =
        foldIso pfx { output := [], stack := s.output :: s.stack, depth := s.depth + 1 }
          (flattenList inner ++ [Payload.end_]) := rfl
    rw [hstep, foldIso_append, hl]
    simp [foldIso, stepIso]

/-- Witness for C4: from depth 0, a nested definition holding an
allowlisted import is copied through with that import name intact. -/
theorem c4_witness :
    (foldIso "foo" { output := [], stack := [], depth := 0 }
      (Payload.moduleSectionStart :: (flattenList innerC4 ++ [Payload.end_])) =
      Sum.inl (IsoState.mk
        [OutItem.nested false
          [OutItem.rawImportSection
            [("wasi:cli/environment@0.2.0-rc-2023-10-18", tyI)]]]
        [] 0)) := by
  rw [(c4_nested_untouched "foo" { output := [], stack := [], depth := 0 } innerC4
    (by decide)).1]
  rfl

/-- C2: registration is idempotent per identity.  If `add_component` succeeds
with handle `i` and state `st'`, calling it again for the same component
returns the same handle `i` and leaves the state — including the disk-read and
isolation-transform logs — exactly `st'`; moreover the first call performed
exactly one read and one transform when the identity was new, and none when it
was already registered. -/
theorem c2_register_idempotent (env : Env) (c : AppComponent)
    (st st' : ComposerState) (i : Nat)
    (h : add_component env c st = (st', .ok i)) :
    add_component env c st' = (st', .ok i) ∧
    (assocFind c.id st.graphComponents = none →
      st'.reads.length = st.reads.length + 1 ∧
      st'.transforms.length = st.transforms.length + 1) ∧
    (∀ d, assocFind c.id st.graphComponents = some d →
      st' = st ∧ st'.reads = st.reads ∧ st'.transforms = st.transforms) := by
  rcases h1 : assocFind c.id st.graphComponents with _ | d
  · -- fresh registration path
    rcases h3 : c.source with _ | path
    · simp [add_component, h1, h3] at h
    rcases h4 : env.disk path with _ | bytes
    · simp [add_component, h1, h3, h4] at h
    rcases h5 : isolateImports env bytes c.id with e | isolated
    · simp [add_component, h1, h3, h4, h5] at h
    rcases h6 : assocFind c.id st.components with _ | cid0
    swap
    · simp [add_component, h1, h3, h4, h5, h6] at h
    rcases h7 : assocFind c.id st.instances with _ | iid0
    swap
    · simp [add_component, h1, h3, h4, h5, h6, h7] at h
    simp only [add_component, h1, h3, h4, h5, h6, h7, Prod.mk.injEq,
      Except.ok.injEq] at h
    obtain ⟨hst, hi⟩ := h
    subst hst
    subst hi
    refine ⟨?_, ?_, ?_⟩
    · have hg : assocFind c.id
          (st.graphComponents ++ [(c.id, parseDef isolated)]) =
          some (parseDef isolated) := assocFind_snoc_self _ _ _ h1
      have hins : assocFind c.id (st.instances ++ [(c.id, st.nextId + 1)]) =
          some (st.nextId + 1) := assocFind_snoc_self _ _ _ h7
      simp only [add_component]
      simp [hg, hins]
    · intro _
      constructor <;> simp
    · intro d hd
      simp at hd
  · -- memoized path
    rcases h2 : assocFind c.id st.instances with _ | i0
    · simp [add_component, h1, h2] at h
    simp only [add_component, h1, h2, Prod.mk.injEq, Except.ok.injEq] at h
    obtain ⟨hst, hi⟩ := h
    subst hst
    subst hi
    refine ⟨?_, ?_, fun d _ => ⟨rfl, rfl, rfl⟩⟩
    · simp [add_component, h1, h2]
    · intro hnone
      simp at hnone

/-- Witness for C2: the first registration of the diamond root succeeds with
handle `iA`, and re-registering it returns the same handle with the state
untouched. -/
theorem c2_witness :
    add_component envDiamond cA initState = (stA, .ok iA) ∧
    add_component envDiamond cA stA = (stA, .ok iA) ∧
    stA.reads.length = initState.reads.length + 1 ∧
    stA.transforms.length = initState.transforms.length + 1 := by
  have h : add_component envDiamond cA initState = (stA, .ok iA) := rfl
  have h2 := c2_register_idempotent envDiamond cA initState stA iA h
  exact ⟨h, h2.1, (h2.2.1 rfl).1, (h2.2.1 rfl).2⟩

/-- C6: `connect` error behaviour.  With both instances present: (i) if the
target import name is absent from the target definition's import table,
`connect` fails with the import-resolution error naming the target and
that import name, leaving the state unchanged; (ii) if a source export name is given
and resolves to an export whose kind is not `instance`, `connect` fails with the
export-resolution error naming the source and that export name (the same bail
site the code uses for an absent export), again leaving the state unchanged. -/
theorem c6_connect_errors (st : ComposerState) (src tgt timp : String)
    (se : Option String) (sid tid : Nat) (tdef : ComponentDef)
    (h1 : assocFind src st.instances = some sid)
    (h2 : assocFind tgt st.instances = some tid)
    (h3 : assocFind tgt st.graphComponents = some tdef) :
    (import_by_name tdef timp = none →
      connect src se tgt timp st =
        (st, .error (.importResolutionErr tgt timp))) ∧
    (∀ ename ii ty sdef ei k x,
      se = some ename →
      import_by_name tdef timp = some (ii, ty) →
      assocFind src st.graphComponents = some sdef →
      export_by_name sdef ename = some (ei, k, x) →
      k ≠ ComponentExternalKind.instance_ →
      connect src se tgt timp st =
        (st, .error (.exportResolutionErr src ename))) := by
  constructor
  · intro him
    simp [connect, h1, h2, resolve_import, h3, him]
  · intro ename ii ty sdef ei k x hse him hsdef hexp hk
    subst hse
    cases k
    case instance_ => exact absurd rfl hk
    all_goals
      simp [connect, h1, h2, resolve_import, h3, him, resolve_export, hsdef, hexp]

/-- Witness for C6 on the concrete two-component state `stConn`: a
missing import name and a function-kind export both fail as the claim
describes. -/
theorem c6_witness :
    connect "S" none "T" "nope" stConn =
      (stConn, .error (.importResolutionErr "T" "nope")) ∧
    connect "S" (some "f") "T" "okimp" stConn =
      (stConn, .error (.exportResolutionErr "S" "f")) := by
  have h := c6_connect_errors stConn "S" "T" "nope" none 1 3 defT rfl rfl rfl
  have h' := c6_connect_errors stConn "S" "T" "okimp" (some "f") 1 3 defT rfl rfl rfl
  exact ⟨h.1 rfl,
    h'.2 "f" 0 tyI defS 0 ComponentExternalKind.func 0 rfl rfl rfl rfl (by decide)⟩

/-- C7: a dependency identity with no manifest entry makes the resolution loop
fail, at the moment the import is met, with the manifest-reference error
carrying the referrer, the missing dependency identity and the import name —
all three appear in its message — while the state passes through unchanged;
and an identity absent from the manifest is never registered by any
`add_dependencies` run. -/
theorem c7_missing_dependency (env : Env) (app : App) (fuel : Nat)
    (cid : String) (visited : List String) (st : ComposerState)
    (nm : String) (imp : AppImport) (rest : List (String × AppImport))
    (hmiss : app.get_component imp.component = none) :
    (depsLoop app (add_component env) (add_dependencies env app fuel) cid visited
        ((nm, imp) :: rest) st =
      (st, visited, .error (.manifestErr cid imp.component nm))) ∧
    (∀ c : AppComponent, c.imports = (nm, imp) :: rest → c.id ∉ visited →
      add_dependencies env app (fuel + 1) visited c st =
        (st, visited ++ [c.id], .error (.manifestErr c.id imp.component nm))) ∧
    strContains (errMessage (.manifestErr cid imp.component nm)) cid = true ∧
    strContains (errMessage (.manifestErr cid imp.component nm)) imp.component = true ∧
    strContains (errMessage (.manifestErr cid imp.component nm)) nm = true ∧
    (∀ fuel' v' c' st0, imp.component ∉ keysOf st0.graphComponents →
      imp.component ∉
        keysOf ((add_dependencies env app fuel' v' c' st0).1.graphComponents)) := by
  refine ⟨?_, ?_, ?_, ?_, ?_, ?_⟩
  · simp [depsLoop, hmiss]
  · intro c hci hcv
    simp [add_dependencies, hcv, hci, depsLoop, hmiss]
  · simp only [errMessage, String.append_assoc]
    exact strContains_append_right _ _ _ (strContains_self_append _ _)
  · simp only [errMessage, String.append_assoc]
    exact strContains_append_right _ _ _ (strContains_append_right _ _ _
      (strContains_append_right _ _ _ (strContains_self_append _ _)))
  · simp only [errMessage, String.append_assoc]
    exact strContains_append_right _ _ _ (strContains_append_right _ _ _
      (strContains_append_right _ _ _ (strContains_append_right _ _ _
        (strContains_append_right _ _ _ (strContains_self_append _ _)))))
  · intro fuel' v' c' st0 h0 hk
    rcases (add_dependencies_resolveStep env app fuel' v' c' st0).1 _ hk with h | h
    · exact h0 h
    · exact get_component_none app imp.component hmiss h

/-- Witness for C7 on the one-component manifest whose only import references
the undeclared identity `Z`. -/
theorem c7_witness :
    (depsLoop appMissing (add_component envMissing)
        (add_dependencies envMissing appMissing 9) "M" ["M"] cM.imports initState =
      (initState, ["M"], .error (.manifestErr "M" "Z" "iz"))) ∧
    (add_dependencies envMissing appMissing 10 [] cM initState =
      (initState, ["M"], .error (.manifestErr "M" "Z" "iz"))) := by
  have h := c7_missing_dependency envMissing appMissing 9 "M" ["M"] initState "iz"
    { component := "Z", export_ := none } [] rfl
  have h0 := c7_missing_dependency envMissing appMissing 9 "M" [] initState "iz"
    { component := "Z", export_ := none } [] rfl
  exact ⟨h.1, h0.2.1 cM rfl (by simp)⟩

/-- C3: one instance per identity.  In every composition run, whatever the
outcome, the graph's component table and instance table are keyed without
duplicates (so each registered identity has exactly one definition and one
instance); on the concrete diamond manifest (`A → B, C`; `B → D`; `C → D`;
`D → E`) the run succeeds and the artifact embeds exactly one definition of
`D`, the graph holds exactly one instance of `D`, and `D` is registered exactly
once. -/
theorem c3_one_instance_per_identity :
    (∀ (env : Env) (app : App) (fuel : Nat) (root : AppComponent),
      (keysOf (composePipeline env app fuel root).1.graphComponents).Nodup ∧
      (keysOf (composePipeline env app fuel root).1.instances).Nodup) ∧
    diamondRun.2 = .ok diamondArtifact ∧
    (keysOf diamondArtifact.definitions).count "D" = 1 ∧
    (keysOf diamondRun.1.instances).count "D" = 1 ∧
    countReg "D" diamondRun.1.events = 1 := by
  refine ⟨?_, rfl, rfl, rfl, rfl⟩
  intro env app fuel root
  rcases hp1 : add_component env root initState with ⟨st1, r1⟩
  have e0 := add_component_state_effects env root initState
  rw [hp1] at e0
  have h1g : (keysOf st1.graphComponents).Nodup := e0.2.1 (by simp [initState, keysOf])
  have h1i : (keysOf st1.instances).Nodup := e0.2.2.1 (by simp [initState, keysOf])
  simp only [composePipeline, hp1]
  cases r1 with
  | error e => exact ⟨h1g, h1i⟩
  | ok rootInstance =>
      dsimp only
      rcases hp2 : add_dependencies env app fuel [] root st1 with ⟨st2, v2, r2⟩
      have hrs := add_dependencies_resolveStep env app fuel [] root st1
      rw [hp2] at hrs
      have h2g := hrs.2.1 h1g
      have h2i := hrs.2.2.1 h1i
      cases r2 with
      | error e => exact ⟨h2g, h2i⟩
      | ok u =>
          cases u
          dsimp only
          rcases hp3 : build_composition env app fuel root st2 with ⟨st3, r3⟩
          have hbf := build_connOnly_frame env app fuel root st2
          rw [hp3] at hbf
          have h3g : (keysOf st3.graphComponents).Nodup := by
            rw [hbf.2.1]; exact h2g
          have h3i : (keysOf st3.instances).Nodup := by
            rw [hbf.2.2]; exact h2i
          cases r3 with
          | error e => exact ⟨h3g, h3i⟩
          | ok u2 =>
              cases u2
              dsimp only
              have hef := encodeGraph_frame (unifyImportedResources st3) rootInstance
              constructor
              · rw [hef.1]; exact h3g
              · rw [hef.2]; exact h3i

/-- C5 counterexample: on the two-component cycle `X ⇄ Y` the pipeline does
fail with the cycle error, but that error's message is the bare string
"cycle": it mentions neither offending identity, so the error does not report
the offending chain of identities as the claim states. -/
theorem c5_counterexample :
    (composePipeline envCycle appCycle 10 cX).2 = .error .cycleErr ∧
    errMessage ComposeError.cycleErr = "cycle" ∧
    strContains (errMessage ComposeError.cycleErr) "X" = false ∧
    strContains (errMessage ComposeError.cycleErr) "Y" = false :=
  ⟨rfl, rfl, rfl, rfl⟩

/-- C5 amended, in full generality over dependency trees: (i) entering
`add_dependencies` for any component whose identity is already in the
path-local visited set fails immediately with the cycle error, touching
neither the state nor the visited set; (ii) at the loop site, once the (memo
or fresh) `add_component` of a dependency succeeded, recursing into a
dependency whose identity is on the current path fails with the cycle error
before any of that dependency's own imports is processed; (iii) the cycle
error's message is the bare "cycle", without the offending chain; (iv) every
composition run that fails — with the cycle error or any other — produces no
artifact and records no encode event, so the failure is before any encode
attempt; (v) the cycle check consults only the path-local visited set, never
the global memo: for any identity not on the current path, resolution
proceeds into the dependency loop whatever the registration state, which is
why a diamond re-entry through the global memo is not an error — as the
concrete cycle and diamond runs exhibit. -/
theorem c5_cycle_detected_amended :
    (∀ (env : Env) (app : App) (fuel : Nat) (visited : List String)
        (c : AppComponent) (st : ComposerState), c.id ∈ visited →
      add_dependencies env app (fuel + 1) visited c st =
        (st, visited, .error .cycleErr)) ∧
    (∀ (env : Env) (app : App) (fuel : Nat) (cid : String)
        (visited : List String) (nm : String) (imp : AppImport)
        (rest : List (String × AppImport)) (st st1 : ComposerState)
        (dep : AppComponent) (i : Nat),
      app.get_component imp.component = some dep →
      dep.id ∈ visited →
      add_component env dep st = (st1, .ok i) →
      depsLoop app (add_component env) (add_dependencies env app (fuel + 1)) cid
        visited ((nm, imp) :: rest) st = (st1, visited, .error .cycleErr)) ∧
    errMessage ComposeError.cycleErr = "cycle" ∧
    (∀ (env : Env) (app : App) (fuel : Nat) (root : AppComponent)
        (st' : ComposerState) (e : ComposeError),
      composePipeline env app fuel root = (st', .error e) →
      Event.encoded ∉ st'.events) ∧
    (∀ (env : Env) (app : App) (fuel : Nat) (visited : List String)
        (c : AppComponent) (st : ComposerState), c.id ∉ visited →
      add_dependencies env app (fuel + 1) visited c st =
        depsLoop app (add_component env) (add_dependencies env app fuel) c.id
          (visited ++ [c.id]) c.imports st) ∧
    (composePipeline envCycle appCycle 10 cX).2 = .error .cycleErr ∧
    (composePipeline envDiamond appDiamond 10 cA).2.isOk = true := by
  refine ⟨?_, ?_, rfl, ?_, ?_, rfl, rfl⟩
  · intro env app fuel visited c st hmem
    simp [add_dependencies, hmem]
  · intro env app fuel cid visited nm imp rest st st1 dep i hg hmem hadd
    have hcyc : add_dependencies env app (fuel + 1) visited dep st1 =
        (st1, visited, .error .cycleErr) := by
      simp [add_dependencies, hmem]
    simp only [depsLoop, hg, hadd]
    rw [hcyc]
  · intro env app fuel root st' e h
    rcases hp1 : add_component env root initState with ⟨st1, r1⟩
    simp only [composePipeline, hp1] at h
    have e0 := add_component_state_effects env root initState
    rw [hp1] at e0
    obtain ⟨-, -, -, l1, he1, hr1⟩ := e0
    have h1ne : Event.encoded ∉ st1.events := by
      rw [he1]
      intro hmem
      rcases List.mem_append.mp hmem with hm | hm
      · simp [initState] at hm
      · obtain ⟨i, hi⟩ := hr1 _ hm
        exact Event.noConfusion hi
    cases r1 with
    | error e1 =>
        simp only [Prod.mk.injEq, Except.error.injEq] at h
        obtain ⟨hst, -⟩ := h
        subst hst
        exact h1ne
    | ok rootInstance =>
        dsimp only at h
        rcases hp2 : add_dependencies env app fuel [] root st1 with ⟨st2, v2, r2⟩
        rw [hp2] at h
        have hrs := add_dependencies_resolveStep env app fuel [] root st1
        rw [hp2] at hrs
        obtain ⟨-, -, -, l2, he2, hr2⟩ := hrs
        have h2ne : Event.encoded ∉ st2.events := by
          rw [he2]
          intro hmem
          rcases List.mem_append.mp hmem with hm | hm
          · exact h1ne hm
          · obtain ⟨i, hi⟩ := hr2 _ hm
            exact Event.noConfusion hi
        cases r2 with
        | error e2 =>
            simp only [Prod.mk.injEq, Except.error.injEq] at h
            obtain ⟨hst, -⟩ := h
            subst hst
            exact h2ne
        | ok u =>
            cases u
            dsimp only at h
            rcases hp3 : build_composition env app fuel root st2 with ⟨st3, r3⟩
            rw [hp3] at h
            have hbf := build_connOnly_frame env app fuel root st2
            rw [hp3] at hbf
            obtain ⟨⟨l3, he3, hc3⟩, -, -⟩ := hbf
            have h3ne : Event.encoded ∉ st3.events := by
              rw [he3]
              intro hmem
              rcases List.mem_append.mp hmem with hm | hm
              · exact h2ne hm
              · obtain ⟨s, t, n, hi⟩ := hc3 _ hm
                exact Event.noConfusion hi
            cases r3 with
            | error e3 =>
                simp only [Prod.mk.injEq, Except.error.injEq] at h
                obtain ⟨hst, -⟩ := h
                subst hst
                exact h3ne
            | ok u2 =>
                cases u2
                dsimp only at h
                unfold encodeGraph at h
                split at h
                · simp only [Prod.mk.injEq, Except.error.injEq] at h
                  obtain ⟨hst, -⟩ := h
                  subst hst
                  show Event.encoded ∉ st3.events ++ [Event.unified]
                  intro hmem
                  rcases List.mem_append.mp hmem with hm | hm
                  · exact h3ne hm
                  · simp at hm
                · simp at h
  · intro env app fuel visited c st hnmem
    simp [add_dependencies, hnmem]

/-- Witness for C5: the general cycle theorem applied at concrete inputs — a
re-entry of `X` while `X` is on the path fails with the bare cycle error and
an unchanged state, and the failed concrete cycle run records no encode
event. -/
theorem c5_witness :
    add_dependencies envCycle appCycle 9 ["X", "Y"] cX initState =
      (initState, ["X", "Y"], .error .cycleErr) ∧
    Event.encoded ∉ (composePipeline envCycle appCycle 10 cX).1.events := by
  constructor
  · exact c5_cycle_detected_amended.1 envCycle appCycle 8 ["X", "Y"] cX initState
      (by decide)
  · exact c5_cycle_detected_amended.2.2.2.1 envCycle appCycle 10 cX
      (composePipeline envCycle appCycle 10 cX).1 ComposeError.cycleErr rfl

/-- C8: the isolation transformer only returns a rewritten artifact the
structural validator accepted; when validation (or any isolation step) fails
for a not-yet-registered component, `add_component` propagates the error and
adds nothing to the graph — no definition, no instance, no registration
event. -/
theorem c8_validation_gate :
    (∀ (env : Env) (bytes : List Payload) (pfx : String) (out : List OutItem),
      isolateImports env bytes pfx = .ok out → env.validate out = true) ∧
    (∀ (env : Env) (c : AppComponent) (st : ComposerState) (path : String)
        (bytes : List Payload) (e : IsoError),
      assocFind c.id st.graphComponents = none →
      c.source = some path →
      env.disk path = some bytes →
      isolateImports env bytes c.id = .error e →
      (add_component env c st).2 = .error (.isolateErr e) ∧
      (add_component env c st).1.graphComponents = st.graphComponents ∧
      (add_component env c st).1.instances = st.instances ∧
      (add_component env c st).1.events = st.events) := by
  constructor
  · intro env bytes pfx out h
    rcases hc : env.componentize bytes with _ | pl
    · simp [isolateImports, hc] at h
    · simp only [isolateImports, hc] at h
      by_cases hv : env.validate (runIso pfx pl) = true
      · simp only [hv, if_true] at h
        injection h with h'
        rw [← h']
        exact hv
      · simp [hv] at h
  · intro env c st path bytes e h1 h3 h4 h5
    simp only [add_component, h1, h3, h4, h5]
    refine ⟨?_, ?_, ?_, ?_⟩ <;> trivial

/-- Witness for C8: the diamond environment validates the rewritten root, and
an environment whose validator rejects everything makes `add_component` fail
with the isolation-validation error, leaving the graph empty. -/
theorem c8_witness :
    envDiamond.validate (runIso "A" binA) = true ∧
    isolateImports envInvalid binA "A" = .error .validateErr ∧
    (add_component envInvalid cA initState).2 = .error (.isolateErr .validateErr) ∧
    (add_component envInvalid cA initState).1.graphComponents =
      initState.graphComponents := by
  have hval := c8_validation_gate.1 envDiamond binA "A" (runIso "A" binA) rfl
  have h2 := c8_validation_gate.2 envInvalid cA initState "pA" binA .validateErr
    rfl rfl rfl rfl
  exact ⟨hval, rfl, h2.1, h2.2.1⟩

theorem snoc_cases {α : Type} (L l₁ l₂ : List α) (x e : α)
    (h : L ++ [e] = l₁ ++ x :: l₂) :
    (l₁ = L ∧ x = e ∧ l₂ = []) ∨
    ∃ l₂', l₂ = l₂' ++ [e] ∧ L = l₁ ++ x :: l₂' := by
  rcases List.eq_nil_or_concat l₂ with h2 | ⟨l₂', a, rfl⟩
  · subst h2
    have hlen : L.length = l₁.length := by
      have hl := congrArg List.length h
      simp at hl
      omega
    obtain ⟨hL, he⟩ := List.append_inj h hlen
    simp at he
    exact Or.inl ⟨hL.symm, he.symm, rfl⟩
  · simp only [List.concat_eq_append] at h ⊢
    rw [show l₁ ++ x :: (l₂' ++ [a]) = (l₁ ++ x :: l₂') ++ [a] by simp] at h
    have hlen : L.length = (l₁ ++ x :: l₂').length := by
      have hl := congrArg List.length h
      simp at hl
      simp
      omega
    obtain ⟨hL, he⟩ := List.append_inj h hlen
    simp at he
    subst he
    exact Or.inr ⟨l₂', rfl, hL⟩

theorem connBefore_of_no_conn (app : App) (L : List Event)
    (h : ∀ d p n, Event.connected d p n ∉ L) : ConnBefore app L := by
  intro l₁ d p n l₂ hL
  exact absurd
    (by rw [hL]; exact List.mem_append_right _ (List.mem_cons_self _ _)) (h d p n)

theorem regOnly_connBefore (app : App) (L : List Event) (h : RegOnly L) :
    ConnBefore app L := by
  apply connBefore_of_no_conn
  intro d p n hmem
  obtain ⟨i, hi⟩ := h _ hmem
  exact Event.noConfusion hi

theorem connBefore_snoc (app : App) (L : List Event) (e : Event)
    (hC : ConnBefore app L)
    (he : ∀ d p n, e = Event.connected d p n → AllConnsOf app d L) :
    ConnBefore app (L ++ [e]) := by
  intro l₁ d p n l₂ hL
  rcases snoc_cases L l₁ l₂ (Event.connected d p n) e hL with
    ⟨h1, h2, _⟩ | ⟨l₂', _, hL'⟩
  · subst h1
    exact he d p n h2.symm
  · exact hC l₁ d p n l₂' hL'

theorem connBefore_snoc_other (app : App) (L : List Event) (e : Event)
    (hC : ConnBefore app L) (he : ∀ d p n, ¬ e = Event.connected d p n) :
    ConnBefore app (L ++ [e]) :=
  connBefore_snoc app L e hC (fun d p n h => absurd h (he d p n))

/-- Bottom-up wiring invariant of the build pass: a successful
`build_composition` preserves the `ConnBefore` trace property and leaves, for
every manifest import of the built component, the corresponding connect event
in the trace. -/
theorem build_connBefore (env : Env) (app : App) : ∀ fuel : Nat,
    (∀ c st st', build_composition env app fuel c st = (st', .ok ()) →
      ConnBefore app st.events →
      ConnBefore app st'.events ∧
      ∀ p ∈ c.imports, Event.connected p.2.component c.id p.1 ∈ st'.events) ∧
    (∀ cid todo st st',
      buildLoop app (build_composition env app fuel) cid todo st = (st', .ok ()) →
      ConnBefore app st.events →
      ConnBefore app st'.events ∧
      ∀ p ∈ todo, Event.connected p.2.component cid p.1 ∈ st'.events) := by
  intro fuel
  induction fuel with
  | zero =>
      constructor
      · intro c st st' h hCB
        simp [build_composition] at h
      · intro cid todo
        induction todo with
        | nil =>
            intro st st' h hCB
            have hst : st = st' := congrArg Prod.fst h
            subst hst
            exact ⟨hCB, by intro p hp; simp at hp⟩
        | cons p rest ihl =>
            intro st st' h hCB
            obtain ⟨nm, imp⟩ := p
            rcases hg : app.get_component imp.component with _ | dep
            · simp [buildLoop, hg] at h
            · simp [buildLoop, hg, build_composition] at h
  | succ fuel ih =>
      have hP : ∀ c st st',
          build_composition env app (fuel + 1) c st = (st', .ok ()) →
          ConnBefore app st.events →
          ConnBefore app st'.events ∧
          ∀ p ∈ c.imports, Event.connected p.2.component c.id p.1 ∈ st'.events := by
        intro c st st' h hCB
        exact ih.2 c.id c.imports st st' h hCB
      refine ⟨hP, ?_⟩
      intro cid todo
      induction todo with
      | nil =>
          intro st st' h hCB
          have hst : st = st' := congrArg Prod.fst h
          subst hst
          exact ⟨hCB, by intro p hp; simp at hp⟩
      | cons p rest ihl =>
          intro st st' h hCB
          obtain ⟨nm, imp⟩ := p
          rcases hg : app.get_component imp.component with _ | dep
          · simp [buildLoop, hg] at h
          simp only [buildLoop, hg] at h
          rcases hb : build_composition env app (fuel + 1) dep st with ⟨st1, rb⟩
          rw [hb] at h
          cases rb with
          | error e => simp at h
          | ok u =>
              cases u
              dsimp only at h
              obtain ⟨hCB1, hMem1⟩ := hP dep st st1 hb hCB
              rcases connect_spec dep.id imp.export_ cid nm st1 with
                ⟨e, hc⟩ | ⟨sid, ei, tid, ii, hc⟩
              · rw [hc] at h
                simp at h
              · rw [hc] at h
                dsimp only at h
                have hCB2 :
                    ConnBefore app (st1.events ++ [Event.connected dep.id cid nm]) := by
                  refine connBefore_snoc app _ _ hCB1 ?_
                  intro d p n he
                  injection he with h1 h2 h3
                  subst h1
                  intro tc htc q hq
                  have hfix := get_component_fix app _ dep hg
                  rw [hfix] at htc
                  injection htc with htc'
                  subst htc'
                  exact hMem1 q hq
                obtain ⟨hCB', hMemRest⟩ := ihl _ st' h hCB2
                have hmono := (buildLoop_connOnly_frame app _ cid
                  (fun d stx' => build_connOnly_frame env app (fuel + 1) d stx') rest
                  { st1 with
                    connections := st1.connections ++
                      [{ sourceInstance := sid, sourceExport := ei,
                         targetInstance := tid, importIndex := ii }],
                    events := st1.events ++ [Event.connected dep.id cid nm] }).1
                rw [h] at hmono
                obtain ⟨l2, he2, -⟩ := hmono
                refine ⟨hCB', ?_⟩
                intro q hq
                rcases List.mem_cons.mp hq with hq1 | hq'
                · subst hq1
                  have hid : dep.id = imp.component := get_component_id app _ dep hg
                  rw [he2]
                  dsimp only
                  refine List.mem_append_left _ (List.mem_append_right _ ?_)
                  simp [← hid]
                · exact hMemRest q hq'

/-- C9: in every successful composition run, the event trace decomposes into
registrations, then connect calls, then the unification pass, then the encode —
so all dependency registration completes before any connection is made, and
unification runs after all connections and before encoding; moreover the trace
satisfies the bottom-up wiring property: every connect call whose source is `d`
is preceded in the trace by the connect calls for all of `d`'s own
manifest imports. -/
theorem c9_stage_order (env : Env) (app : App) (fuel : Nat) (root : AppComponent)
    (st' : ComposerState) (art : Artifact)
    (h : composePipeline env app fuel root = (st', .ok art)) :
    (∃ regs conns, st'.events = regs ++ conns ++ [Event.unified, Event.encoded] ∧
      RegOnly regs ∧ ConnOnly conns) ∧
    ConnBefore app st'.events := by
  rcases hp1 : add_component env root initState with ⟨st1, r1⟩
  simp only [composePipeline, hp1] at h
  cases r1 with
  | error e => simp at h
  | ok rootInstance =>
      dsimp only at h
      rcases hp2 : add_dependencies env app fuel [] root st1 with ⟨st2, v2, r2⟩
      rw [hp2] at h
      cases r2 with
      | error e => simp at h
      | ok u =>
          cases u
          dsimp only at h
          rcases hp3 : build_composition env app fuel root st2 with ⟨st3, r3⟩
          rw [hp3] at h
          cases r3 with
          | error e => simp at h
          | ok u2 =>
              cases u2
              dsimp only at h
              unfold encodeGraph at h
              split at h
              · simp at h
              · simp only [Prod.mk.injEq, Except.ok.injEq] at h
                obtain ⟨hst, hart⟩ := h
                subst hst
                have e0 := add_component_state_effects env root initState
                rw [hp1] at e0
                obtain ⟨-, -, -, l1, he1, hr1⟩ := e0
                have hrs := add_dependencies_resolveStep env app fuel [] root st1
                rw [hp2] at hrs
                obtain ⟨-, -, -, l2, he2, hr2⟩ := hrs
                have hbf := build_connOnly_frame env app fuel root st2
                rw [hp3] at hbf
                obtain ⟨⟨l3, he3, hc3⟩, -, -⟩ := hbf
                have hev2 : st2.events = l1 ++ l2 := by
                  rw [he2, he1]
                  simp [initState]
                have hCB2 : ConnBefore app st2.events := by
                  rw [hev2]
                  exact regOnly_connBefore app _ (regOnly_append hr1 hr2)
                have hCB3 := ((build_connBefore env app fuel).1 root st2 st3 hp3 hCB2).1
                have h4 : ConnBefore app (st3.events ++ [Event.unified]) :=
                  connBefore_snoc_other app _ _ hCB3
                    (fun d p n he => Event.noConfusion he)
                have h5 : ConnBefore app ((st3.events ++ [Event.unified]) ++
                    [Event.encoded]) :=
                  connBefore_snoc_other app _ _ h4
                    (fun d p n he => Event.noConfusion he)
                have hev3 : st3.events = (l1 ++ l2) ++ l3 := by
                  rw [he3, hev2]
                constructor
                · refine ⟨l1 ++ l2, l3, ?_, regOnly_append hr1 hr2, hc3⟩
                  show (st3.events ++ [Event.unified]) ++ [Event.encoded] = _
                  rw [hev3]
                  simp [List.append_assoc]
                · show ConnBefore app ((st3.events ++ [Event.unified]) ++
                    [Event.encoded])
                  exact h5

/-- Witness for C9: the successful diamond run has the staged trace shape and
the bottom-up property. -/
theorem c9_witness :
    (∃ regs conns, diamondRun.1.events =
      regs ++ conns ++ [Event.unified, Event.encoded] ∧
      RegOnly regs ∧ ConnOnly conns) ∧
    ConnBefore appDiamond diamondRun.1.events :=
  c9_stage_order envDiamond appDiamond 10 cA diamondRun.1 diamondArtifact rfl

theorem countConn_append (s t n : String) (l₁ l₂ : List Event) :
    countConn s t n (l₁ ++ l₂) = countConn s t n l₁ + countConn s t n l₂ := by
  simp [countConn, List.countP_append]

theorem countConn_connected (s t n a b c : String) :
    countConn s t n [Event.connected a b c] =
      if a = s ∧ b = t ∧ c = n then 1 else 0 := by
  simp [countConn, List.countP_cons, beq_iff_eq, Event.connected.injEq]

theorem countReg_connOnly (i : String) (l : List Event) (h : ConnOnly l) :
    countReg i l = 0 := by
  rw [countReg, List.countP_eq_zero]
  intro e he
  obtain ⟨s, t, n, rfl⟩ := h e he
  simp

/-- Connect-call counting for the wiring pass: a successful build of `c` makes,
for the import `(n₀, d₀)` of the component with identity `t`, exactly one
connect call per import path from `c` to `t`. -/
theorem build_count (env : Env) (app : App) (t n₀ d₀ : String)
    (tc : AppComponent) (htc : app.get_component t = some tc) : ∀ fuel : Nat,
    (∀ c st st', app.get_component c.id = some c →
      build_composition env app fuel c st = (st', .ok ()) →
      countConn d₀ t n₀ st'.events =
        countConn d₀ t n₀ st.events +
          pathCount app fuel c t * importMatchCount n₀ d₀ tc.imports) ∧
    (∀ cid todo st st',
      buildLoop app (build_composition env app fuel) cid todo st = (st', .ok ()) →
      countConn d₀ t n₀ st'.events =
        countConn d₀ t n₀ st.events +
          pathLoop app (fun d => pathCount app fuel d t) todo *
            importMatchCount n₀ d₀ tc.imports +
          (if cid = t then importMatchCount n₀ d₀ todo else 0)) := by
  intro fuel
  induction fuel with
  | zero =>
      constructor
      · intro c st st' hc h
        simp [build_composition] at h
      · intro cid todo
        induction todo with
        | nil =>
            intro st st' h
            have hst : st = st' := congrArg Prod.fst h
            subst hst
            simp [pathLoop, importMatchCount]
        | cons p rest ihl =>
            intro st st' h
            obtain ⟨nm, imp⟩ := p
            rcases hg : app.get_component imp.component with _ | dep
            · simp [buildLoop, hg] at h
            · simp [buildLoop, hg, build_composition] at h
  | succ fuel ih =>
      have hP : ∀ c st st', app.get_component c.id = some c →
          build_composition env app (fuel + 1) c st = (st', .ok ()) →
          countConn d₀ t n₀ st'.events =
            countConn d₀ t n₀ st.events +
              pathCount app (fuel + 1) c t * importMatchCount n₀ d₀ tc.imports := by
        intro c st st' hc h
        have hq := ih.2 c.id c.imports st st' h
        rw [hq]
        rw [show pathCount app (fuel + 1) c t =
          (if c.id = t then 1 else 0) +
            pathLoop app (fun d => pathCount app fuel d t) c.imports from rfl]
        by_cases hct : c.id = t
        · have htcc : tc = c := by
            rw [hct] at hc
            rw [hc] at htc
            injection htc with htc'
            exact htc'.symm
          subst htcc
          simp only [hct, if_true, if_pos]
          rw [Nat.add_mul, Nat.one_mul]
          omega
        · simp [hct]
      refine ⟨hP, ?_⟩
      intro cid todo
      induction todo with
      | nil =>
          intro st st' h
          have hst : st = st' := congrArg Prod.fst h
          subst hst
          simp [pathLoop, importMatchCount]
      | cons p rest ihl =>
          intro st st' h
          obtain ⟨nm, imp⟩ := p
          rcases hg : app.get_component imp.component with _ | dep
          · simp [buildLoop, hg] at h
          simp only [buildLoop, hg] at h
          rcases hb : build_composition env app (fuel + 1) dep st with ⟨st1, rb⟩
          rw [hb] at h
          cases rb with
          | error e => simp at h
          | ok u =>
              cases u
              dsimp only at h
              rcases connect_spec dep.id imp.export_ cid nm st1 with
                ⟨e, hc⟩ | ⟨sid, ei, tid, ii, hc⟩
              · rw [hc] at h
                simp at h
              · rw [hc] at h
                dsimp only at h
                have hdep := get_component_fix app _ dep hg
                have hcount1 := hP dep st st1 hdep hb
                have hcount3 := ihl _ st' h
                have hid : dep.id = imp.component := get_component_id app _ dep hg
                rw [hcount3]
                dsimp only
                rw [countConn_append, countConn_connected, hcount1]
                rw [show pathLoop app (fun d => pathCount app (fuel + 1) d t)
                    ((nm, imp) :: rest) =
                  pathCount app (fuel + 1) dep t +
                    pathLoop app (fun d => pathCount app (fuel + 1) d t) rest
                  by simp [pathLoop, hg]]
                rw [show importMatchCount n₀ d₀ ((nm, imp) :: rest) =
                    (if nm = n₀ ∧ imp.component = d₀ then 1 else 0) +
                      importMatchCount n₀ d₀ rest by
                  simp [importMatchCount, List.countP_cons, Bool.and_eq_true,
                    beq_iff_eq]
                  by_cases h1 : nm = n₀ <;> by_cases h2 : imp.component = d₀ <;>
                    simp [h1, h2] <;> omega]
                rw [hid]
                by_cases hct : cid = t <;> by_cases hn : nm = n₀ <;>
                  by_cases hd : imp.component = d₀ <;>
                  simp [hct, hn, hd, Nat.add_mul] <;> omega

/-- C10: the wiring pass is not memoized.  For a component with identity `t`
declaring the import `(n₀, d₀)`, a successful build of `c` issues exactly
`pathCount` connect calls for that import — one per import path from `c` to
`t`, not one overall — while registering nothing and leaving the component and
instance tables untouched. -/
theorem c10_unmemoized_wiring (env : Env) (app : App) (t n₀ d₀ : String)
    (tc c : AppComponent) (fuel : Nat) (st st' : ComposerState)
    (htc : app.get_component t = some tc)
    (hc : app.get_component c.id = some c)
    (hbuild : build_composition env app fuel c st = (st', .ok ())) :
    countConn d₀ t n₀ st'.events =
      countConn d₀ t n₀ st.events +
        pathCount app fuel c t * importMatchCount n₀ d₀ tc.imports ∧
    (∀ i, countReg i st'.events = countReg i st.events) ∧
    st'.graphComponents = st.graphComponents ∧
    st'.instances = st.instances := by
  have hcf := build_connOnly_frame env app fuel c st
  rw [hbuild] at hcf
  obtain ⟨⟨l, he, hconn⟩, hgf, hif⟩ := hcf
  refine ⟨(build_count env app t n₀ d₀ tc htc fuel).1 c st st' hc hbuild, ?_, hgf, hif⟩
  intro i
  rw [he, countReg, List.countP_append]
  have h0 : countReg i l = 0 := countReg_connOnly i l hconn
  rw [countReg] at h0
  rw [h0]
  rfl

/-- Witness for C10 on the diamond with the deep shared dependency `D → E`:
two import paths lead from the root `A` to `D`, so `D`'s single import `ie` is
connected by two connect calls, while `D` is registered exactly once. -/
theorem c10_witness :
    (countConn "E" "D" "ie" diamondBuilt.events =
      countConn "E" "D" "ie" diamondResolved.events +
        pathCount appDiamond 10 cA "D" * importMatchCount "ie" "E" cD.imports) ∧
    pathCount appDiamond 10 cA "D" = 2 ∧
    importMatchCount "ie" "E" cD.imports = 1 ∧
    countConn "E" "D" "ie" diamondResolved.events = 0 ∧
    countConn "E" "D" "ie" diamondBuilt.events = 2 ∧
    countReg "D" diamondBuilt.events = 1 := by
  have h := c10_unmemoized_wiring envDiamond appDiamond "D" "ie" "E" cD cA 10
    diamondResolved diamondBuilt rfl rfl rfl
  exact ⟨h.1, rfl, rfl, rfl, rfl, rfl⟩

end SpinCompose
